import Mathlib

/-!
# bfhl-api: the `POST /bfhl` handler of `src/index.js`

A shallow embedding of the request handler and of its helpers `isPrime`, `gcd`
and `lcm`, followed by theorems about them.

Modelling conventions.

* JavaScript numbers are doubles.  A finite number is kept as the rational it
  denotes; `NaN` and `Infinity` are values of their own.  Arithmetic (`%`, `*`,
  `/`) is evaluated on integer-valued numbers and on `NaN` only, and only where
  the double result is the exact one: a product beyond `2^53`, which the engine
  rounds, is `unmodelled`, as are a quotient that is not an integer and an
  operation on any other operand (a number with a fractional part, a string,
  `null`, ...).  The sums of the `fibonacci` case are rounded to the nearest
  double, as the engine does.  Negative zero and negative infinity are not
  represented.
* A JavaScript exception is the result `throws`, which carries the text of the
  error.  The recursion of `gcd` is bounded by the depth of the call stack, a
  parameter of the environment; when the stack is exhausted the engine raises
  a `RangeError`.
* The completion provider is a function of the user message: it fails with an
  error text, or returns a content that may be `null`.  The handler records
  the user messages it hands to the provider.
-/

namespace Bfhl

/-! ## Values -/

/-- A JavaScript number: a finite value, kept exactly, `NaN`, or `Infinity`. -/
inductive JNum where
  | fin (q : ℚ)
  | nan
  | inf

/-- The JavaScript values the handler meets: parsed JSON, `undefined`, and the
numbers computed by the arithmetic helpers. -/
inductive JVal where
  | undefined
  | null
  | bool (b : Bool)
  | num (x : JNum)
  | str (s : String)
  | arr (xs : List JVal)
  | obj (kvs : List (String × JVal))

/-- The number with integer value `i`. -/
def JVal.int (i : Int) : JVal := .num (.fin (i : ℚ))

/-- The value `NaN`. -/
def JVal.NaN : JVal := .num .nan

/-- Result of evaluating a JavaScript expression. -/
inductive Eval (α : Type) where
  | ok (a : α)
  | throws (err : String)
  | unmodelled

/-- Sequencing: an exception or an unmodelled operation ends the evaluation. -/
def Eval.bind {α β : Type} : Eval α → (α → Eval β) → Eval β
  | .ok a, f => f a
  | .throws err, _ => .throws err
  | .unmodelled, _ => .unmodelled

/-! ## Arithmetic on values -/

/-- An operand on which arithmetic is evaluated: an integer or `NaN`. -/
inductive Operand where
  | int (i : Int)
  | nan

/-- Reads a value as an arithmetic operand, when it is an integer-valued number
or `NaN`. -/
def operand : JVal → Option Operand
  | .num (.fin q) => if q.den = 1 then some (.int q.num) else none
  | .num .nan => some .nan
  | _ => none

/-- `v === 0`: strict equality with the number zero. -/
def strictEqZero : JVal → Bool
  | .num (.fin q) => decide (q = 0)
  | _ => false

/-- `a % b`: the remainder has the sign of the dividend; `x % 0` is `NaN`. -/
def jsMod (a b : JVal) : Eval JVal :=
  match operand a, operand b with
  | some (.int x), some (.int y) => if y = 0 then .ok .NaN else .ok (.int (x.tmod y))
  | some _, some _ => .ok .NaN
  | _, _ => .unmodelled

/-- `a * b`: up to `2^53` the product of two integers is a double and the
result is exact; beyond, the engine rounds it, which is not modelled. -/
def jsMul (a b : JVal) : Eval JVal :=
  match operand a, operand b with
  | some (.int x), some (.int y) =>
    if (x * y).natAbs ≤ 2 ^ 53 then .ok (.int (x * y)) else .unmodelled
  | some _, some _ => .ok .NaN
  | _, _ => .unmodelled

/-- `a / b`: `0 / 0` is `NaN`; a quotient that is not an integer, or is
infinite, is not modelled. -/
def jsDiv (a b : JVal) : Eval JVal :=
  match operand a, operand b with
  | some (.int x), some (.int y) =>
    if y = 0 then (if x = 0 then .ok .NaN else .unmodelled)
    else if y ∣ x then .ok (.int (x.tdiv y)) else .unmodelled
  | some _, some _ => .ok .NaN
  | _, _ => .unmodelled

/-- A double that is a non-negative integer, or `Infinity`: the values taken by
the variables `a` and `b` of the `fibonacci` case. -/
inductive NatDouble where
  | fin (n : Nat)
  | inf
deriving DecidableEq

/-- The double nearest to the natural number `m`, found by trying the spacings
`2^j` in turn from `j` on: the first `j` with `m / 2^j < 2^53` is the spacing of
the doubles around `m`, and `m` is rounded to the nearest multiple of `2^j`, on
a tie to the multiple with the even significand.  A finite double has a spacing
of at most `2^971` and is below `2^1024`; beyond, the result is `Infinity`.  The
first argument bounds the number of spacings tried. -/
def roundAt (m : Nat) : Nat → Nat → NatDouble
  | 0, _ => .inf
  | fuel + 1, j =>
    if m / 2 ^ j < 2 ^ 53 then
      let q := m / 2 ^ j
      let r := m % 2 ^ j
      let k := if 2 * r < 2 ^ j then q else if 2 ^ j < 2 * r then q + 1
        else if q % 2 = 0 then q else q + 1
      if j = 971 ∧ k = 2 ^ 53 then .inf else .fin (k * 2 ^ j)
    else roundAt m fuel (j + 1)

/-- The double nearest to the natural number `m`; below `2^53` it is `m`. -/
def roundDouble (m : Nat) : NatDouble := roundAt m 972 0

/-- `a + b` on doubles that are non-negative integers or `Infinity`: the exact
sum, rounded to the nearest double. -/
def NatDouble.add : NatDouble → NatDouble → NatDouble
  | .fin x, .fin y => roundDouble (x + y)
  | _, _ => .inf

/-- The value of such a double. -/
def NatDouble.toJVal : NatDouble → JVal
  | .fin n => .int n
  | .inf => .num .inf

/-! ## Utility functions (`src/index.js`, lines 19-28) -/

/-- The error raised by the engine when the call stack is exhausted. -/
def stackOverflow : String := "RangeError: Maximum call stack size exceeded"

/-- The loop of `isPrime`: `for (let i = 2; i <= Math.sqrt(n); i++)`, entered at
counter `i`.  On integers `i <= Math.sqrt(n)` is `i * i <= n`. -/
def isPrime.loop (n : Int) (i : Nat) : Bool :=
  if (i : Int) * i ≤ n then
    if n.tmod i = 0 then false else isPrime.loop n (i + 1)
  else true
termination_by n.toNat + 1 - i
decreasing_by
  rename_i h _
  have h1 : (i : Int) ≤ (i : Int) * i := by nlinarith [Int.ofNat_nonneg i]
  omega

/-- `isPrime(n)` on an integer `n`. -/
def isPrime (n : Int) : Bool :=
  if n < 2 then false else isPrime.loop n 2

/-- `gcd(a, b) = b === 0 ? a : gcd(b, a % b)`, with `stack` frames left. -/
def gcd : Nat → JVal → JVal → Eval JVal
  | 0, _, _ => .throws stackOverflow
  | stack + 1, a, b =>
    if strictEqZero b then .ok a else (jsMod a b).bind (fun r => gcd stack b r)

/-- `lcm(a, b) = (a * b) / gcd(a, b)`. -/
def lcm (stack : Nat) (a b : JVal) : Eval JVal :=
  (jsMul a b).bind (fun p => (gcd stack a b).bind (fun g => jsDiv p g))

/-! ## Library functions used by the handler -/

/-- The fold of `Array.prototype.reduce`, from accumulator `acc`. -/
def reduceFrom (f : JVal → JVal → Eval JVal) : JVal → List JVal → Eval JVal
  | acc, [] => .ok acc
  | acc, n :: rest => (f acc n).bind (fun acc' => reduceFrom f acc' rest)

/-- `xs.reduce(f)` without an initial value: the first element is the initial
accumulator and `f` is not called on it; an empty array is a `TypeError`. -/
def reduce (f : JVal → JVal → Eval JVal) : List JVal → Eval JVal
  | [] => .throws "TypeError: Reduce of empty array with no initial value"
  | x :: rest => reduceFrom f x rest

/-- `xs.push(x)`: an array holds at most `2^32 - 1` elements, and the push that
would make the length `2^32` raises a `RangeError`. -/
def push (xs : List JVal) (x : JVal) : Eval (List JVal) :=
  if xs.length + 1 < 2 ^ 32 then .ok (xs ++ [x])
  else .throws "RangeError: Invalid array length"

/-- White space and line terminators, the characters removed by `trim()` and
matched by `\s`. -/
def isWhiteSpace (c : Char) : Bool :=
  let n := c.toNat
  n = 0x09 || n = 0x0A || n = 0x0B || n = 0x0C || n = 0x0D || n = 0x20 || n = 0xA0
    || n = 0x1680 || (0x2000 ≤ n && n ≤ 0x200A) || n = 0x2028 || n = 0x2029
    || n = 0x202F || n = 0x205F || n = 0x3000 || n = 0xFEFF

/-- Characters matched by `\w`. -/
def isWordChar (c : Char) : Bool :=
  let n := c.toNat
  (0x41 ≤ n && n ≤ 0x5A) || (0x61 ≤ n && n ≤ 0x7A) || (0x30 ≤ n && n ≤ 0x39) || n = 0x5F

/-- `s.trim()`. -/
def trim (s : String) : String :=
  ⟨((s.data.dropWhile isWhiteSpace).reverse.dropWhile isWhiteSpace).reverse⟩

/-- `s.split(/\s+/)[0]`: the characters before the first white space. -/
def firstToken (s : String) : String :=
  ⟨s.data.takeWhile (fun c => !isWhiteSpace c)⟩

/-- `s.replace(/[^\w]/g, "")`. -/
def stripNonWord (s : String) : String :=
  ⟨s.data.filter isWordChar⟩

/-- `Object.keys(v)`. -/
def Object.keys : JVal → Eval (List String)
  | .undefined => .throws "TypeError: Cannot convert undefined or null to object"
  | .null => .throws "TypeError: Cannot convert undefined or null to object"
  | .bool _ => .ok []
  | .num _ => .ok []
  | .str s => .ok ((List.range s.length).map toString)
  | .arr xs => .ok ((List.range xs.length).map toString)
  | .obj kvs => .ok (kvs.map Prod.fst)

/-- `body[key]` for a key returned by `Object.keys(body)`. -/
def getProp : JVal → String → JVal
  | .obj kvs, key => (kvs.lookup key).getD .undefined
  | .arr xs, key =>
    match (List.range xs.length).find? (fun i => toString i = key) with
    | some i => xs.getD i .undefined
    | none => .undefined
  | .str s, key =>
    match (List.range s.length).find? (fun i => toString i = key) with
    | some i => .str (String.singleton (s.data.getD i ' '))
    | none => .undefined
  | _, _ => .undefined

/-! ## The handler (`src/index.js`, lines 43-174) -/

/-- Outcome of `openai.chat.completions.create`: the call fails with an error,
or yields `choices[0].message.content`, which is `null` when the provider sends
none. -/
inductive Completion where
  | failure (err : String)
  | content (c : Option String)

/-- What the handler is given by the process: the configured e-mail address, the
completion provider as a function of the user message, and the depth of the
call stack. -/
structure Env where
  EMAIL : Option String
  openai : String → Completion
  stack : Nat

/-- The JSON envelope sent by `res.status(..).json(..)`. -/
structure Response where
  status : Nat
  is_success : Bool
  official_email : Option String
  data : Option JVal
  error : Option String

/-- A handled request: the response, and the user messages handed to the
provider. -/
structure Outcome where
  response : Response
  calls : List String

/-- `res.status(200).json({ is_success: true, official_email: EMAIL, data })`. -/
def success (env : Env) (data : JVal) : Response :=
  { status := 200, is_success := true, official_email := env.EMAIL,
    data := some data, error := none }

/-- `res.status(status).json({ is_success: false, official_email: EMAIL, error })`. -/
def failure (env : Env) (status : Nat) (error : String) : Response :=
  { status := status, is_success := false, official_email := env.EMAIL,
    data := none, error := some error }

/-- The loop of the `fibonacci` case, with `count` iterations left:
`fib.push(a); [a, b] = [b, a + b]`. -/
def fibLoop : Nat → NatDouble → NatDouble → List JVal → Eval (List JVal)
  | 0, _, _, fib => .ok fib
  | count + 1, a, b, fib =>
    (push fib a.toJVal).bind (fun fib' => fibLoop count b (a.add b) fib')

/-- The predicate of the `prime` case: `Number.isInteger(n) && isPrime(n)`.
`Number.isInteger` does not coerce: it holds of integer-valued numbers only. -/
def primeFilter : JVal → Bool
  | .num (.fin q) => decide (q.den = 1) && isPrime q.num
  | _ => false

/-- The `AI` case after the provider was called with user message `value`: a
failed call throws, and so does `.trim()` on a `null` content; otherwise the
content is cut down to its first word. -/
def aiReply (env : Env) (value : String) : Completion → List String × Eval Response
  | .failure err => ([value], .throws err)
  | .content none =>
    ([value], .throws "TypeError: Cannot read properties of null")
  | .content (some c) =>
    ([value], .ok (success env (.str (stripNonWord (firstToken (trim c))))))

/-- The `switch (key)` of the handler: the provider calls made and the response
sent, or the exception raised.  `Number.isInteger(value)` and
`Array.isArray(value)` are the matches on `value`. -/
def dispatch (env : Env) (key : String) (value : JVal) : List String × Eval Response :=
  if key = "fibonacci" then
    match value with
    | .num (.fin q) =>
      if q.den ≠ 1 ∨ q < 0 then ([], .ok (failure env 400 "Invalid fibonacci input"))
      else
        ([], (fibLoop q.num.toNat (.fin 0) (.fin 1) []).bind
          (fun fib => .ok (success env (.arr fib))))
    | _ => ([], .ok (failure env 400 "Invalid fibonacci input"))
  else if key = "prime" then
    match value with
    | .arr xs => ([], .ok (success env (.arr (xs.filter primeFilter))))
    | _ => ([], .ok (failure env 400 "Prime input must be an array"))
  else if key = "lcm" then
    match value with
    | .arr (x :: rest) =>
      ([], (reduce (lcm env.stack) (x :: rest)).bind (fun data => .ok (success env data)))
    | _ => ([], .ok (failure env 400 "LCM input must be a non-empty array"))
  else if key = "hcf" then
    match value with
    | .arr (x :: rest) =>
      ([], (reduce (gcd env.stack) (x :: rest)).bind (fun data => .ok (success env data)))
    | _ => ([], .ok (failure env 400 "HCF input must be a non-empty array"))
  else if key = "AI" then
    match value with
    | .str s =>
      if trim s = "" then ([], .ok (failure env 400 "AI input must be a string"))
      else aiReply env s (env.openai s)
    | _ => ([], .ok (failure env 400 "AI input must be a string"))
  else ([], .ok (failure env 400 "Invalid input key"))

/-- The body of the `try` block. -/
def tryBlock (env : Env) (body : JVal) : List String × Eval Response :=
  match Object.keys body with
  | .ok [key] => dispatch env key (getProp body key)
  | .ok _ => ([], .ok (failure env 400 "Exactly one input key is required"))
  | .throws err => ([], .throws err)
  | .unmodelled => ([], .unmodelled)

/-- The `catch` block and the end of the handler: an exception raised in the
`try` block is answered with status 500.  The result is `none` when the request
leaves the modelled fragment of the arithmetic. -/
def catchBlock (env : Env) : List String × Eval Response → Option Outcome
  | (calls, .ok r) => some { response := r, calls := calls }
  | (calls, .throws _) =>
    some { response := failure env 500 "Internal Server Error", calls := calls }
  | (_, .unmodelled) => none

/-- The handler `app.post("/bfhl", ...)`. -/
def postBfhl (env : Env) (body : JVal) : Option Outcome :=
  catchBlock env (tryBlock env body)

/-- A concrete environment, used to evaluate the handler on examples. -/
def demoEnv : Env :=
  { EMAIL := some "official@example.com"
    openai := fun _ => .content (some "Paris")
    stack := 10000 }

/-- An environment whose provider is down: every call fails. -/
def downEnv : Env :=
  { demoEnv with openai := fun _ => .failure "503 Service Unavailable" }

/-- An environment whose provider answers with white space only. -/
def blankEnv : Env :=
  { demoEnv with openai := fun _ => .content (some "  ") }

/-! ## The one-word answer in the words of the specification -/

/-- `cs.split(/\s+/)`: the pieces of `cs` between maximal runs of white space;
`inRun` tells that the character before was white space. -/
def splitWhiteSpace (inRun : Bool) : List Char → List (List Char)
  | [] => [[]]
  | c :: cs =>
    if isWhiteSpace c then
      if inRun then splitWhiteSpace true cs else [] :: splitWhiteSpace true cs
    else
      match splitWhiteSpace false cs with
      | tok :: rest => (c :: tok) :: rest
      | [] => [[c]]

/-- The answer as the specification words it: trim the text, split it on white
space, take the first token, and strip every character that is not
alphanumeric or underscore. -/
def specOneWord (t : String) : String :=
  ⟨((splitWhiteSpace false (trim t).data).headD []).filter
    (fun c => c.isAlphanum || c == '_')⟩

/-! ## Notions used in the statements -/

/-- The sequence computed by the `fibonacci` case: `0`, `1`, and then the sum of
the two terms before, as a double. -/
def doubleFib : Nat → NatDouble
  | 0 => .fin 0
  | 1 => .fin 1
  | n + 2 => (doubleFib n).add (doubleFib (n + 1))

/-- The product of the absolute values of the elements of `xs` that are not
zero: a bound on every product formed by the fold of `lcm` over `xs`. -/
def nonZeroProduct (xs : List Int) : Nat :=
  ((xs.filter (fun x => decide (x ≠ 0))).map Int.natAbs).prod

/-! ## Shape of the responses -/

/-- A response sent from the `try` block is the success envelope or a 400
failure envelope. -/
def SentByTry (env : Env) (r : Response) : Prop :=
  (∃ d, r = success env d) ∨ (∃ msg, r = failure env 400 msg)

/-! ## Evaluation lemmas -/

theorem postBfhl_single (env : Env) (key : String) (value : JVal) :
    postBfhl env (.obj [(key, value)]) = catchBlock env (dispatch env key value) := by
  simp [postBfhl, tryBlock, Object.keys, getProp, List.lookup]

theorem dispatch_prime_arr (env : Env) (xs : List JVal) :
    dispatch env "prime" (.arr xs) = ([], .ok (success env (.arr (xs.filter primeFilter)))) := by
  simp [dispatch]

theorem dispatch_lcm_cons (env : Env) (x : JVal) (rest : List JVal) :
    dispatch env "lcm" (.arr (x :: rest))
      = ([], (reduce (lcm env.stack) (x :: rest)).bind (fun data => .ok (success env data))) := by
  simp [dispatch]

theorem dispatch_hcf_cons (env : Env) (x : JVal) (rest : List JVal) :
    dispatch env "hcf" (.arr (x :: rest))
      = ([], (reduce (gcd env.stack) (x :: rest)).bind (fun data => .ok (success env data))) := by
  simp [dispatch]

theorem dispatch_AI_str (env : Env) (s : String) (h : trim s ≠ "") :
    dispatch env "AI" (.str s) = aiReply env s (env.openai s) := by
  simp [dispatch, h]

theorem catchBlock_status_ne (env : Env) (calls : List String) (e : Eval JVal) :
    ∀ o, catchBlock env (calls, e.bind (fun data => .ok (success env data))) = some o →
      o.response.status ≠ 400 := by
  intro o h
  cases e with
  | ok d =>
    simp only [Eval.bind, catchBlock, Option.some.injEq] at h
    rw [← h]; simp [success]
  | throws err =>
    simp only [Eval.bind, catchBlock, Option.some.injEq] at h
    rw [← h]; simp [failure]
  | unmodelled => simp [Eval.bind, catchBlock] at h

theorem operand_int (i : Int) : operand (.int i) = some (.int i) := by
  simp [operand, JVal.int]

theorem operand_NaN : operand .NaN = some .nan := rfl

theorem strictEqZero_int (i : Int) : strictEqZero (.int i) = decide (i = 0) := by
  simp [strictEqZero, JVal.int]

theorem strictEqZero_NaN : strictEqZero .NaN = false := rfl

theorem fin_eq_int_iff (q : ℚ) : (∃ n : Int, JVal.num (.fin q) = .int n) ↔ q.den = 1 := by
  constructor
  · rintro ⟨n, h⟩
    simp only [JVal.int, JVal.num.injEq, JNum.fin.injEq] at h
    rw [h]; rfl
  · intro h
    exact ⟨q.num, by rw [JVal.int, Rat.coe_int_num_of_den_eq_one h]⟩

/-! ## The `fibonacci` case -/

theorem roundDouble_small (m : Nat) (h : m < 2 ^ 53) : roundDouble m = .fin m := by
  have h972 : (972 : Nat) = 971 + 1 := rfl
  rw [roundDouble, h972, roundAt]
  have h0 : m / 2 ^ 0 < 2 ^ 53 := by simpa using h
  rw [if_pos h0]
  simp [Nat.mod_one]

theorem fib_lt_two_pow (i : Nat) (h : i ≤ 78) : Nat.fib i < 2 ^ 53 :=
  lt_of_le_of_lt (Nat.fib_mono h) (by norm_num [Nat.fib_add_two])

/-- Up to index 78 the terms computed in doubles are the Fibonacci numbers. -/
theorem doubleFib_eq_fib (i : Nat) : (i ≤ 78 → doubleFib i = .fin (Nat.fib i))
    ∧ (i + 1 ≤ 78 → doubleFib (i + 1) = .fin (Nat.fib (i + 1))) := by
  induction i with
  | zero => exact ⟨fun _ => rfl, fun _ => rfl⟩
  | succ i ih =>
    refine ⟨ih.2, fun h => ?_⟩
    rw [doubleFib, ih.1 (by omega), ih.2 (by omega), NatDouble.add, ← Nat.fib_add_two]
    exact roundDouble_small _ (fib_lt_two_pow _ h)

theorem push_ok (xs : List JVal) (x : JVal) (h : xs.length + 1 < 2 ^ 32) :
    push xs x = .ok (xs ++ [x]) := by
  unfold push
  rw [if_pos h]

/-- While the array stays below `2^32` elements the loop pushes the terms of
`doubleFib` one after the other. -/
theorem fibLoop_doubleFib (k : Nat) : ∀ (m : Nat) (acc : List JVal),
    acc.length + k < 2 ^ 32 →
    fibLoop k (doubleFib m) (doubleFib (m + 1)) acc
      = .ok (acc ++ (List.range' m k).map (fun i => (doubleFib i).toJVal)) := by
  induction k with
  | zero => intro m acc _; simp [fibLoop]
  | succ k ih =>
    intro m acc h
    rw [fibLoop, push_ok acc _ (by omega)]
    simp only [Eval.bind]
    have hstep : (doubleFib m).add (doubleFib (m + 1)) = doubleFib (m + 1 + 1) := rfl
    rw [hstep, ih (m + 1) _ (by simp; omega)]
    simp [List.range'_succ]

/-- The push that would make the length `2^32` raises, whatever the terms. -/
theorem fibLoop_overflow (k : Nat) : ∀ (a b : NatDouble) (acc : List JVal),
    acc.length < 2 ^ 32 → 2 ^ 32 ≤ acc.length + k →
    fibLoop k a b acc = .throws "RangeError: Invalid array length" := by
  induction k with
  | zero => intro a b acc h1 h2; omega
  | succ k ih =>
    intro a b acc h1 h2
    rw [fibLoop]
    by_cases hlen : acc.length + 1 < 2 ^ 32
    · rw [push_ok acc _ hlen]
      simp only [Eval.bind]
      exact ih _ _ _ (by simpa using hlen) (by simp; omega)
    · unfold push
      rw [if_neg hlen]
      rfl

theorem dispatch_fibonacci_nat (env : Env) (n : Nat) :
    dispatch env "fibonacci" (.int n)
      = ([], (fibLoop n (.fin 0) (.fin 1) []).bind
          (fun fib => .ok (success env (.arr fib)))) := by
  have h : ¬ ((n : ℚ) < 0) := by simp
  simp [dispatch, JVal.int, h]

theorem fibLoop_eq (n : Nat) (hn : n < 2 ^ 32) :
    fibLoop n (.fin 0) (.fin 1) []
      = .ok (((List.range n).map doubleFib).map NatDouble.toJVal) := by
  have h := fibLoop_doubleFib n 0 [] (by simpa using hn)
  rw [show doubleFib 0 = .fin 0 from rfl, show doubleFib (0 + 1) = .fin 1 from rfl] at h
  rw [h, List.range_eq_range']
  simp

/-- The `fibonacci` request on a non-negative integer: a success below `2^32`,
the internal-error response from `2^32` on. -/
theorem fibonacci_request_nat (env : Env) (n : Nat) :
    (n < 2 ^ 32 →
      postBfhl env (.obj [("fibonacci", .int n)])
        = some ⟨success env (.arr (((List.range n).map doubleFib).map NatDouble.toJVal)), []⟩)
    ∧ (2 ^ 32 ≤ n →
      postBfhl env (.obj [("fibonacci", .int n)])
        = some ⟨failure env 500 "Internal Server Error", []⟩) := by
  refine ⟨fun h => ?_, fun h => ?_⟩
  · rw [postBfhl_single, dispatch_fibonacci_nat, fibLoop_eq n h]
    rfl
  · rw [postBfhl_single, dispatch_fibonacci_nat,
      fibLoop_overflow n _ _ [] (by simp) (by simpa using h)]
    rfl

/-- Claim C1 fails from `n = 80` on: the term at index 79 is the double
`14472334024676220`, while the terms at indices 77 and 78 add up to
`14472334024676221`. -/
theorem fibonacci_sequence_counterexample :
    ∃ terms : List JVal,
      postBfhl demoEnv (.obj [("fibonacci", .int 80)])
        = some ⟨success demoEnv (.arr terms), []⟩
      ∧ terms[77]? = some (.int 5527939700884757)
      ∧ terms[78]? = some (.int 8944394323791464)
      ∧ terms[79]? = some (.int 14472334024676220)
      ∧ (5527939700884757 + 8944394323791464 : Int) ≠ 14472334024676220 :=
  ⟨_, by rfl, by rfl, by rfl, by rfl, by decide⟩

/-- Claim C1, amended: for every non-negative integer `n` below `2^32` the
request `{fibonacci: n}` succeeds with a list of exactly `n` terms; the list is
empty when `n = 0`, it starts `0, 1`, every term from index 2 on is the sum, as
a double, of the two terms before it, and up to index 78 that sum is the exact
one; `n = 5` gives `[0,1,1,2,3]`. -/
theorem fibonacci_sequence (env : Env) (n : Nat) (hn : n < 2 ^ 32) :
    ∃ terms : List NatDouble,
      postBfhl env (.obj [("fibonacci", .int n)])
        = some ⟨success env (.arr (terms.map NatDouble.toJVal)), []⟩
      ∧ terms.length = n
      ∧ (n = 0 → terms = [])
      ∧ (1 ≤ n → terms[0]? = some (.fin 0))
      ∧ (2 ≤ n → terms[1]? = some (.fin 1))
      ∧ (∀ i, 2 ≤ i → i < n →
          ∃ x y, terms[i - 2]? = some x ∧ terms[i - 1]? = some y
            ∧ terms[i]? = some (x.add y))
      ∧ (∀ i, 2 ≤ i → i < n → i ≤ 78 →
          ∃ x y : Nat, terms[i - 2]? = some (.fin x) ∧ terms[i - 1]? = some (.fin y)
            ∧ terms[i]? = some (.fin (y + x)))
      ∧ postBfhl env (.obj [("fibonacci", .int 5)])
          = some ⟨success env (.arr [.int 0, .int 1, .int 1, .int 2, .int 3]), []⟩ := by
  have hget : ∀ i, i < n → ((List.range n).map doubleFib)[i]? = some (doubleFib i) := by
    intro i hi; simp [List.getElem?_range, hi]
  refine ⟨(List.range n).map doubleFib, ?_, by simp, ?_, ?_, ?_, ?_, ?_, ?_⟩
  · rw [postBfhl_single, dispatch_fibonacci_nat, fibLoop_eq n hn]
    rfl
  · rintro rfl; rfl
  · intro h; exact hget 0 (by omega)
  · intro h; exact hget 1 (by omega)
  · intro i h2 hin
    obtain ⟨j, rfl⟩ : ∃ j, i = j + 2 := ⟨i - 2, by omega⟩
    exact ⟨doubleFib j, doubleFib (j + 1), hget j (by omega), hget (j + 1) (by omega),
      hget (j + 2) hin⟩
  · intro i h2 hin h78
    obtain ⟨j, rfl⟩ : ∃ j, i = j + 2 := ⟨i - 2, by omega⟩
    have e1 : j + 2 - 2 = j := by omega
    have e2 : j + 2 - 1 = j + 1 := by omega
    refine ⟨Nat.fib j, Nat.fib (j + 1), ?_, ?_, ?_⟩
    · rw [e1, hget j (by omega), (doubleFib_eq_fib j).1 (by omega)]
    · rw [e2, hget (j + 1) (by omega), (doubleFib_eq_fib j).2 (by omega)]
    · rw [hget (j + 2) hin, (doubleFib_eq_fib (j + 1)).2 (by omega), Nat.fib_add_two,
        Nat.add_comm]
  · rfl

/-- Claim C1, amended, at `n = 5`. -/
theorem fibonacci_sequence_witness :
    (5 : Nat) < 2 ^ 32
    ∧ ∃ terms : List NatDouble,
      postBfhl demoEnv (.obj [("fibonacci", .int (5 : Nat))])
        = some ⟨success demoEnv (.arr (terms.map NatDouble.toJVal)), []⟩
      ∧ terms.length = 5
      ∧ ((5 : Nat) = 0 → terms = [])
      ∧ (1 ≤ 5 → terms[0]? = some (.fin 0))
      ∧ (2 ≤ 5 → terms[1]? = some (.fin 1))
      ∧ (∀ i, 2 ≤ i → i < 5 →
          ∃ x y, terms[i - 2]? = some x ∧ terms[i - 1]? = some y
            ∧ terms[i]? = some (x.add y))
      ∧ (∀ i, 2 ≤ i → i < 5 → i ≤ 78 →
          ∃ x y : Nat, terms[i - 2]? = some (.fin x) ∧ terms[i - 1]? = some (.fin y)
            ∧ terms[i]? = some (.fin (y + x)))
      ∧ postBfhl demoEnv (.obj [("fibonacci", .int 5)])
          = some ⟨success demoEnv (.arr [.int 0, .int 1, .int 1, .int 2, .int 3]), []⟩ :=
  ⟨by decide, fibonacci_sequence demoEnv 5 (by decide)⟩

/-! ## `isPrime` and the `prime` case -/

theorem tmod_natCast_eq_zero_iff (m i : Nat) : Int.tmod (m : Int) (i : Int) = 0 ↔ i ∣ m := by
  rw [← Int.dvd_iff_tmod_eq_zero]
  exact Int.natCast_dvd_natCast

/-- The loop of `isPrime` entered at `i` returns true exactly when no `j` from
`i` up to the square root divides `m`. -/
theorem isPrime_loop_iff (m : Nat) : ∀ (d i : Nat), m + 1 - i = d → 1 ≤ i →
    (isPrime.loop (m : Int) i = true ↔ ∀ j, i ≤ j → j * j ≤ m → ¬ j ∣ m) := by
  intro d
  induction d using Nat.strong_induction_on with
  | _ d ih =>
    intro i hd hi
    rw [isPrime.loop]
    by_cases hsq : (i : Int) * i ≤ (m : Int)
    · have hsq' : i * i ≤ m := by exact_mod_cast hsq
      have hle : i ≤ m := le_trans (Nat.le_mul_self i) hsq'
      rw [if_pos hsq]
      by_cases hdiv : Int.tmod (m : Int) (i : Int) = 0
      · rw [if_pos hdiv]
        have hd' : i ∣ m := (tmod_natCast_eq_zero_iff m i).1 hdiv
        constructor
        · intro h; cases h
        · intro h; exact absurd hd' (h i le_rfl hsq')
      · rw [if_neg hdiv]
        have hd' : ¬ i ∣ m := fun h => hdiv ((tmod_natCast_eq_zero_iff m i).2 h)
        rw [ih (m + 1 - (i + 1)) (by omega) (i + 1) rfl (by omega)]
        constructor
        · intro h j hij hj
          rcases Nat.eq_or_lt_of_le hij with rfl | hlt
          · exact hd'
          · exact h j hlt hj
        · intro h j hij hj
          exact h j (by omega) hj
    · rw [if_neg hsq]
      have hsq' : ¬ i * i ≤ m := by intro h; exact hsq (by exact_mod_cast h)
      constructor
      · intro _ j hij hj
        exact absurd (le_trans (Nat.mul_le_mul hij hij) hj) hsq'
      · intro _; rfl

theorem isPrime_natCast_iff (m : Nat) : isPrime (m : Int) = true ↔ Nat.Prime m := by
  unfold isPrime
  by_cases h : (m : Int) < 2
  · rw [if_pos h]
    have : m < 2 := by exact_mod_cast h
    constructor
    · intro h'; cases h'
    · intro hp; exact absurd hp.two_le (by omega)
  · rw [if_neg h]
    have h2 : 2 ≤ m := by
      have : ¬ m < 2 := fun h' => h (by exact_mod_cast h')
      omega
    rw [isPrime_loop_iff m (m + 1 - 2) 2 rfl (by omega), Nat.prime_def_le_sqrt]
    constructor
    · intro hl
      exact ⟨h2, fun j hj hs => hl j hj (Nat.le_sqrt.1 hs)⟩
    · rintro ⟨_, hl⟩ j hj hs
      exact hl j hj (Nat.le_sqrt.2 hs)

/-- Claim C2: `isPrime(n)` is false for every integer `n < 2`; for `n >= 2` it is
true exactly when no `i` with `2 <= i <= floor(sqrt(n))` divides `n`; and for
`n >= 0` it is true exactly when `n` is a prime number. -/
theorem isPrime_spec (n : Int) :
    (n < 2 → isPrime n = false)
    ∧ (2 ≤ n → (isPrime n = true ↔
        ∀ i : Nat, 2 ≤ i → i ≤ Nat.sqrt n.toNat → ¬ ((i : Int) ∣ n)))
    ∧ (0 ≤ n → (isPrime n = true ↔ Nat.Prime n.toNat)) := by
  refine ⟨?_, ?_, ?_⟩
  · intro h; simp [isPrime, h]
  · intro h
    obtain ⟨m, rfl⟩ : ∃ m : Nat, n = m := ⟨n.toNat, by omega⟩
    rw [isPrime_natCast_iff, Nat.prime_def_le_sqrt]
    have h2 : 2 ≤ m := by exact_mod_cast h
    simp only [Int.toNat_ofNat, Int.natCast_dvd_natCast]
    exact ⟨fun hp => hp.2, fun hp => ⟨h2, hp⟩⟩
  · intro h
    obtain ⟨m, rfl⟩ : ∃ m : Nat, n = m := ⟨n.toNat, by omega⟩
    simpa using isPrime_natCast_iff m

theorem primeFilter_iff (v : JVal) :
    primeFilter v = true ↔ ∃ p : Nat, p.Prime ∧ v = .int p := by
  constructor
  · intro h
    match v, h with
    | .num (.fin q), h =>
      simp only [primeFilter, Bool.and_eq_true, decide_eq_true_eq] at h
      obtain ⟨hden, hp⟩ := h
      have hq : ((q.num : Int) : ℚ) = q := Rat.coe_int_num_of_den_eq_one hden
      have hnn : 0 ≤ q.num := by
        by_contra hneg
        have : q.num < 2 := by omega
        simp [isPrime, this] at hp
      obtain ⟨m, hm⟩ : ∃ m : Nat, q.num = m := ⟨q.num.toNat, by omega⟩
      refine ⟨m, ?_, ?_⟩
      · rw [hm] at hp; exact (isPrime_natCast_iff m).1 hp
      · rw [JVal.int, ← hm, hq]
  · rintro ⟨p, hp, rfl⟩
    simp [primeFilter, JVal.int, (isPrime_natCast_iff p).2 hp]

/-- Claim C3: for every array `xs`, whatever its elements, the request
`{prime: xs}` succeeds with the elements of `xs` that pass the filter, in their
order and with their multiplicity, and an element passes exactly when it is an
integer that is a prime number; `[2,3,4,5,9]` gives `[2,3,5]`. -/
theorem prime_filter (env : Env) (xs : List JVal) :
    postBfhl env (.obj [("prime", .arr xs)])
        = some ⟨success env (.arr (xs.filter primeFilter)), []⟩
    ∧ (∀ v, primeFilter v = true ↔ ∃ p : Nat, p.Prime ∧ v = .int p)
    ∧ (xs.filter primeFilter).Sublist xs
    ∧ postBfhl env (.obj [("prime", .arr [.int 2, .int 3, .int 4, .int 5, .int 9])])
        = some ⟨success env (.arr [.int 2, .int 3, .int 5]), []⟩ := by
  refine ⟨?_, primeFilter_iff, List.filter_sublist xs, ?_⟩
  · rw [postBfhl_single]; simp [dispatch, catchBlock]
  · rw [postBfhl_single]
    simp [dispatch, catchBlock, primeFilter, JVal.int, isPrime, isPrime.loop, Int.tmod]

/-! ## `gcd` and the `hcf` case -/

theorem natAbs_tmod (a b : Int) : (a.tmod b).natAbs = a.natAbs % b.natAbs := by
  cases a <;> cases b <;> simp [Int.tmod] <;> rfl

/-- On integers, with a stack deeper than `|b|`, `gcd` returns an integer whose
absolute value is the greatest common divisor. -/
theorem gcd_int (k : Nat) : ∀ a b : Int, b.natAbs < k →
    ∃ g : Int, gcd k (.int a) (.int b) = .ok (.int g)
      ∧ g.natAbs = Nat.gcd a.natAbs b.natAbs ∧ (0 ≤ a → 0 ≤ b → 0 ≤ g) := by
  induction k with
  | zero => intro a b h; omega
  | succ k ih =>
    intro a b hb
    by_cases hz : b = 0
    · subst hz
      exact ⟨a, by simp [gcd, strictEqZero_int], by simp, fun h _ => h⟩
    · have hlt : (a.tmod b).natAbs < k := by
        rw [natAbs_tmod]
        have : a.natAbs % b.natAbs < b.natAbs := Nat.mod_lt _ (by omega)
        omega
      obtain ⟨g, hg, habs, hnn⟩ := ih b (a.tmod b) hlt
      refine ⟨g, ?_, ?_, ?_⟩
      · simp [gcd, strictEqZero_int, hz, jsMod, operand_int, Eval.bind, hg]
      · rw [habs, natAbs_tmod, Nat.gcd_comm a.natAbs b.natAbs, Nat.gcd_rec b.natAbs a.natAbs,
          Nat.gcd_comm]
      · intro ha hb'
        exact hnn hb' (Int.tmod_nonneg b ha)

/-- With `NaN` as second argument the recursion of `gcd` never reaches
`b === 0`: the stack is exhausted whatever its depth. -/
theorem gcd_NaN_right (k : Nat) :
    ∀ a : JVal, (operand a).isSome → gcd k a .NaN = .throws stackOverflow := by
  induction k with
  | zero => intro a _; rfl
  | succ k ih =>
    intro a ha
    obtain ⟨o, ho⟩ := Option.isSome_iff_exists.1 ha
    have hmod : jsMod a .NaN = .ok .NaN := by
      cases o <;> simp [jsMod, ho, operand_NaN]
    simp [gcd, strictEqZero_NaN, hmod, Eval.bind, ih .NaN rfl]

theorem gcd_NaN_left (k : Nat) (b : Int) (hb : b ≠ 0) :
    gcd k .NaN (.int b) = .throws stackOverflow := by
  cases k with
  | zero => rfl
  | succ k =>
    simp [gcd, strictEqZero_int, hb, jsMod, operand_int, operand_NaN, Eval.bind,
      gcd_NaN_right k (.int b) (by simp [operand_int])]

theorem reduceFrom_gcd_int (k : Nat) : ∀ (ns : List Int) (acc : Int),
    (∀ n ∈ ns, n.natAbs < k) →
    ∃ g : Int, reduceFrom (gcd k) (.int acc) (ns.map JVal.int) = .ok (.int g)
      ∧ g.natAbs = (ns.map Int.natAbs).foldl Nat.gcd acc.natAbs
      ∧ (0 ≤ acc → (∀ n ∈ ns, 0 ≤ n) → 0 ≤ g) := by
  intro ns
  induction ns with
  | nil => intro acc _; exact ⟨acc, rfl, rfl, fun h _ => h⟩
  | cons n rest ih =>
    intro acc hk
    obtain ⟨g, hg, habs, hnn⟩ := gcd_int k acc n (hk n (List.mem_cons_self _ _))
    obtain ⟨r, hr, hrabs, hrnn⟩ := ih g (fun m hm => hk m (List.mem_cons_of_mem _ hm))
    refine ⟨r, ?_, ?_, ?_⟩
    · simp [reduceFrom, hg, Eval.bind, hr]
    · simp [hrabs, habs]
    · intro hacc hall
      exact hrnn (hnn hacc (hall n (List.mem_cons_self _ _)))
        (fun m hm => hall m (List.mem_cons_of_mem _ hm))

/-- The `hcf` request on a non-empty array of integers. -/
theorem hcf_int (env : Env) (xs : List Int) (hne : xs ≠ [])
    (hstack : ∀ x ∈ xs, x.natAbs < env.stack) :
    ∃ d : Int, postBfhl env (.obj [("hcf", .arr (xs.map JVal.int))])
        = some ⟨success env (.int d), []⟩
      ∧ d.natAbs = (xs.map Int.natAbs).foldl Nat.gcd 0
      ∧ ((∀ x ∈ xs, 0 ≤ x) → 0 ≤ d) := by
  match xs, hne with
  | x :: rest, _ =>
    obtain ⟨g, hg, habs, hnn⟩ := reduceFrom_gcd_int env.stack rest x
      (fun m hm => hstack m (List.mem_cons_of_mem _ hm))
    refine ⟨g, ?_, ?_, ?_⟩
    · rw [postBfhl_single]
      simp [dispatch, reduce, hg, Eval.bind, catchBlock]
    · simp [habs]
    · intro hall
      exact hnn (hall x (List.mem_cons_self _ _)) (fun m hm => hall m (List.mem_cons_of_mem _ hm))

theorem foldl_gcd_perm {l₁ l₂ : List Nat} (p : l₁.Perm l₂) (init : Nat) :
    l₁.foldl Nat.gcd init = l₂.foldl Nat.gcd init := by
  refine p.foldl_eq' ?_ init
  intro x _ y _ z
  rw [Nat.gcd_assoc, Nat.gcd_comm x y, ← Nat.gcd_assoc]

/-- Claim C4 fails on integers of both signs: `[3, -3]` gives `-3` and its
permutation `[-3, 3]` gives `3`. -/
theorem hcf_perm_counterexample :
    List.Perm [(3 : Int), -3] [-3, 3]
    ∧ postBfhl demoEnv (.obj [("hcf", .arr ([(3 : Int), -3].map JVal.int))])
        = some ⟨success demoEnv (.int (-3)), []⟩
    ∧ postBfhl demoEnv (.obj [("hcf", .arr ([(-3 : Int), 3].map JVal.int))])
        = some ⟨success demoEnv (.int 3), []⟩
    ∧ postBfhl demoEnv (.obj [("hcf", .arr ([(3 : Int), -3].map JVal.int))])
        ≠ postBfhl demoEnv (.obj [("hcf", .arr ([(-3 : Int), 3].map JVal.int))]) := by
  have h1 : postBfhl demoEnv (.obj [("hcf", .arr ([(3 : Int), -3].map JVal.int))])
        = some ⟨success demoEnv (.int (-3)), []⟩ := by rfl
  have h2 : postBfhl demoEnv (.obj [("hcf", .arr ([(-3 : Int), 3].map JVal.int))])
        = some ⟨success demoEnv (.int 3), []⟩ := by rfl
  refine ⟨List.Perm.swap _ _ _, h1, h2, ?_⟩
  rw [h1, h2]
  simp [success, JVal.int]
  norm_num

/-- Claim C4, amended: for a non-empty array `xs` of integers and a permutation
`ys` of it, on a call stack deeper than the absolute value of every element,
the `hcf` requests on `xs` and on `ys` both succeed with integers of the same
absolute value, and with the same integer when no element is negative. -/
theorem hcf_perm (env : Env) (xs ys : List Int) (hne : xs ≠ []) (hperm : xs.Perm ys)
    (hstack : ∀ x ∈ xs, x.natAbs < env.stack) :
    ∃ dx dy : Int,
      postBfhl env (.obj [("hcf", .arr (xs.map JVal.int))]) = some ⟨success env (.int dx), []⟩
      ∧ postBfhl env (.obj [("hcf", .arr (ys.map JVal.int))]) = some ⟨success env (.int dy), []⟩
      ∧ dx.natAbs = dy.natAbs
      ∧ ((∀ x ∈ xs, 0 ≤ x) → dx = dy) := by
  have hne' : ys ≠ [] := fun h => hne (by simpa [h] using hperm)
  obtain ⟨dx, hx, hxabs, hxnn⟩ := hcf_int env xs hne hstack
  obtain ⟨dy, hy, hyabs, hynn⟩ := hcf_int env ys hne' (fun y hy => hstack y (hperm.mem_iff.2 hy))
  have habs : dx.natAbs = dy.natAbs := by
    rw [hxabs, hyabs]
    exact foldl_gcd_perm (hperm.map _) 0
  refine ⟨dx, dy, hx, hy, habs, ?_⟩
  intro hall
  have h1 := hxnn hall
  have h2 := hynn (fun y hy => hall y (hperm.mem_iff.2 hy))
  omega

/-- Claim C4, amended, at `[12, 18]` and `[18, 12]`. -/
theorem hcf_perm_witness :
    ([12, 18] : List Int) ≠ []
    ∧ List.Perm ([12, 18] : List Int) [18, 12]
    ∧ (∀ x ∈ ([12, 18] : List Int), x.natAbs < demoEnv.stack)
    ∧ ∃ dx dy : Int,
      postBfhl demoEnv (.obj [("hcf", .arr (([12, 18] : List Int).map JVal.int))])
        = some ⟨success demoEnv (.int dx), []⟩
      ∧ postBfhl demoEnv (.obj [("hcf", .arr (([18, 12] : List Int).map JVal.int))])
        = some ⟨success demoEnv (.int dy), []⟩
      ∧ dx.natAbs = dy.natAbs
      ∧ ((∀ x ∈ ([12, 18] : List Int), 0 ≤ x) → dx = dy) :=
  ⟨by decide, by decide, by decide,
    hcf_perm demoEnv [12, 18] [18, 12] (by decide) (by decide) (by decide)⟩

/-! ## `lcm` and the `lcm` case -/

/-- On integers that are not both zero and whose product is at most `2^53`,
with a stack deeper than `|b|`, `lcm` returns an integer whose absolute value is
the least common multiple. -/
theorem lcm_int (k : Nat) (a b : Int) (hk : b.natAbs < k) (hz : ¬ (a = 0 ∧ b = 0))
    (hprod : (a * b).natAbs ≤ 2 ^ 53) :
    ∃ m : Int, lcm k (.int a) (.int b) = .ok (.int m)
      ∧ m.natAbs = Nat.lcm a.natAbs b.natAbs ∧ (0 ≤ a → 0 ≤ b → 0 ≤ m) := by
  obtain ⟨g, hg, habs, hnn⟩ := gcd_int k a b hk
  have hg0 : g ≠ 0 := by
    intro h
    rw [h, Int.natAbs_zero, eq_comm, Nat.gcd_eq_zero_iff] at habs
    exact hz ⟨Int.natAbs_eq_zero.1 habs.1, Int.natAbs_eq_zero.1 habs.2⟩
  have hdvd : g ∣ a * b := by
    have h1 : g.natAbs ∣ a.natAbs := habs ▸ Nat.gcd_dvd_left _ _
    exact Dvd.dvd.mul_right (Int.natAbs_dvd_natAbs.1 h1) b
  have hmul : jsMul (.int a) (.int b) = .ok (.int (a * b)) := by
    simp only [jsMul, operand_int]
    rw [if_pos hprod]
  have hdiv : jsDiv (.int (a * b)) (.int g) = .ok (.int ((a * b).tdiv g)) := by
    simp [jsDiv, operand_int, hg0, hdvd]
  refine ⟨(a * b).tdiv g, ?_, ?_, ?_⟩
  · simp only [lcm, hmul, Eval.bind, hg, hdiv]
  · rw [Int.natAbs_tdiv, Int.natAbs_mul, habs]; rfl
  · intro ha hb
    exact Int.tdiv_nonneg (Int.mul_nonneg ha hb) (hnn ha hb)

theorem lcm_zero_zero (k : Nat) : lcm (k + 1) (.int 0) (.int 0) = .ok .NaN := by
  simp [lcm, jsMul, jsDiv, gcd, operand_int, strictEqZero_int, Eval.bind]

theorem lcm_NaN_left (k : Nat) (b : Int) (hb : b ≠ 0) :
    lcm k .NaN (.int b) = .throws stackOverflow := by
  simp [lcm, jsMul, operand_int, operand_NaN, Eval.bind, gcd_NaN_left k b hb]

theorem nonZeroProduct_cons (n : Int) (rest : List Int) :
    nonZeroProduct (n :: rest)
      = if n = 0 then nonZeroProduct rest else n.natAbs * nonZeroProduct rest := by
  unfold nonZeroProduct
  by_cases h : n = 0
  · simp [h]
  · simp [h, List.filter_cons]

theorem nonZeroProduct_pos (xs : List Int) : 0 < nonZeroProduct xs := by
  induction xs with
  | nil => simp [nonZeroProduct]
  | cons n rest ih =>
    rw [nonZeroProduct_cons]
    split_ifs with h
    · exact ih
    · exact Nat.mul_pos (Int.natAbs_pos.2 h) ih

theorem nonZeroProduct_perm {xs ys : List Int} (p : xs.Perm ys) :
    nonZeroProduct xs = nonZeroProduct ys := by
  unfold nonZeroProduct
  exact ((p.filter _).map _).prod_eq

theorem reduceFrom_lcm_int (k : Nat) : ∀ (ns : List Int) (acc : Int),
    (∀ n ∈ ns, n.natAbs < k) → (acc = 0 → (0 : Int) ∉ ns) → ns.count 0 ≤ 1 →
    acc.natAbs * nonZeroProduct ns ≤ 2 ^ 53 →
    ∃ m : Int, reduceFrom (lcm k) (.int acc) (ns.map JVal.int) = .ok (.int m)
      ∧ m.natAbs = (ns.map Int.natAbs).foldl Nat.lcm acc.natAbs
      ∧ (0 ≤ acc → (∀ n ∈ ns, 0 ≤ n) → 0 ≤ m) := by
  intro ns
  induction ns with
  | nil => intro acc _ _ _ _; exact ⟨acc, rfl, rfl, fun h _ => h⟩
  | cons n rest ih =>
    intro acc hk hacc hcount hbound
    have hz : ¬ (acc = 0 ∧ n = 0) := by
      rintro ⟨h0, rfl⟩
      exact hacc h0 (List.mem_cons_self _ _)
    have hpos := nonZeroProduct_pos rest
    rw [nonZeroProduct_cons] at hbound
    have hprod : (acc * n).natAbs ≤ 2 ^ 53 := by
      rw [Int.natAbs_mul]
      by_cases hn : n = 0
      · simp [hn]
      · rw [if_neg hn] at hbound
        calc acc.natAbs * n.natAbs
            ≤ acc.natAbs * n.natAbs * nonZeroProduct rest := Nat.le_mul_of_pos_right _ hpos
          _ = acc.natAbs * (n.natAbs * nonZeroProduct rest) := Nat.mul_assoc _ _ _
          _ ≤ 2 ^ 53 := hbound
    obtain ⟨m, hm, habs, hnn⟩ := lcm_int k acc n (hk n (List.mem_cons_self _ _)) hz hprod
    have hbound' : m.natAbs * nonZeroProduct rest ≤ 2 ^ 53 := by
      rw [habs]
      by_cases hn : n = 0
      · simp [hn]
      · rw [if_neg hn] at hbound
        have hle : Nat.lcm acc.natAbs n.natAbs ≤ acc.natAbs * n.natAbs :=
          Nat.div_le_self _ _
        calc Nat.lcm acc.natAbs n.natAbs * nonZeroProduct rest
            ≤ acc.natAbs * n.natAbs * nonZeroProduct rest := Nat.mul_le_mul_right _ hle
          _ = acc.natAbs * (n.natAbs * nonZeroProduct rest) := Nat.mul_assoc _ _ _
          _ ≤ 2 ^ 53 := hbound
    have hrest : m = 0 → (0 : Int) ∉ rest := by
      intro hm0 hmem
      rw [hm0, Int.natAbs_zero] at habs
      have hor : acc.natAbs = 0 ∨ n.natAbs = 0 := by
        by_contra hcon
        push_neg at hcon
        exact Nat.lcm_ne_zero hcon.1 hcon.2 habs.symm
      rcases hor with h | h
      · exact hacc (Int.natAbs_eq_zero.1 h) (List.mem_cons_of_mem _ hmem)
      · have hn0 : n = 0 := Int.natAbs_eq_zero.1 h
        subst hn0
        have : 0 < rest.count 0 := List.count_pos_iff.2 hmem
        simp at hcount
        omega
    have hcount' : rest.count 0 ≤ 1 := by
      have := List.count_le_count_cons (0 : Int) n rest
      omega
    obtain ⟨r, hr, hrabs, hrnn⟩ :=
      ih m (fun x hx => hk x (List.mem_cons_of_mem _ hx)) hrest hcount' hbound'
    refine ⟨r, ?_, ?_, ?_⟩
    · simp [reduceFrom, hm, Eval.bind, hr]
    · simp [hrabs, habs]
    · intro h0 hall
      exact hrnn (hnn h0 (hall n (List.mem_cons_self _ _)))
        (fun x hx => hall x (List.mem_cons_of_mem _ hx))

/-- The `lcm` request on a non-empty array of integers with at most one zero,
whose elements other than zero have a product of at most `2^53`. -/
theorem lcm_request_int (env : Env) (xs : List Int) (hne : xs ≠ [])
    (hstack : ∀ x ∈ xs, x.natAbs < env.stack) (hzero : xs.count 0 ≤ 1)
    (hprod : nonZeroProduct xs ≤ 2 ^ 53) :
    ∃ d : Int, postBfhl env (.obj [("lcm", .arr (xs.map JVal.int))])
        = some ⟨success env (.int d), []⟩
      ∧ d.natAbs = (xs.map Int.natAbs).foldl Nat.lcm 1
      ∧ ((∀ x ∈ xs, 0 ≤ x) → 0 ≤ d) := by
  match xs, hne with
  | x :: rest, _ =>
    have hx0 : x = 0 → (0 : Int) ∉ rest := by
      rintro rfl hmem
      have : 0 < rest.count 0 := List.count_pos_iff.2 hmem
      simp at hzero
      omega
    have hcount' : rest.count 0 ≤ 1 := by
      have := List.count_le_count_cons (0 : Int) x rest
      omega
    have hbound : x.natAbs * nonZeroProduct rest ≤ 2 ^ 53 := by
      rw [nonZeroProduct_cons] at hprod
      by_cases hx : x = 0
      · simp [hx]
      · rwa [if_neg hx] at hprod
    obtain ⟨g, hg, habs, hnn⟩ := reduceFrom_lcm_int env.stack rest x
      (fun m hm => hstack m (List.mem_cons_of_mem _ hm)) hx0 hcount' hbound
    refine ⟨g, ?_, ?_, ?_⟩
    · rw [postBfhl_single]
      simp [dispatch, reduce, hg, Eval.bind, catchBlock]
    · simp [habs]
    · intro hall
      exact hnn (hall x (List.mem_cons_self _ _)) (fun m hm => hall m (List.mem_cons_of_mem _ hm))

theorem foldl_lcm_perm {l₁ l₂ : List Nat} (p : l₁.Perm l₂) (init : Nat) :
    l₁.foldl Nat.lcm init = l₂.foldl Nat.lcm init := by
  refine p.foldl_eq' ?_ init
  intro x _ y _ z
  rw [Nat.lcm_assoc, Nat.lcm_comm x y, ← Nat.lcm_assoc]

/-- Claim C5 fails on integers of both signs, and on arrays with two zeros:
`[3, -3]` gives `3` and `[-3, 3]` gives `-3`; `[0, 0, 5]` ends in the
internal-error response and `[0, 5, 0]` succeeds with `NaN`. -/
theorem lcm_perm_counterexample :
    List.Perm [(3 : Int), -3] [-3, 3]
    ∧ postBfhl demoEnv (.obj [("lcm", .arr ([(3 : Int), -3].map JVal.int))])
        = some ⟨success demoEnv (.int 3), []⟩
    ∧ postBfhl demoEnv (.obj [("lcm", .arr ([(-3 : Int), 3].map JVal.int))])
        = some ⟨success demoEnv (.int (-3)), []⟩
    ∧ postBfhl demoEnv (.obj [("lcm", .arr ([(3 : Int), -3].map JVal.int))])
        ≠ postBfhl demoEnv (.obj [("lcm", .arr ([(-3 : Int), 3].map JVal.int))])
    ∧ List.Perm [(0 : Int), 0, 5] [0, 5, 0]
    ∧ postBfhl demoEnv (.obj [("lcm", .arr ([(0 : Int), 0, 5].map JVal.int))])
        = some ⟨failure demoEnv 500 "Internal Server Error", []⟩
    ∧ postBfhl demoEnv (.obj [("lcm", .arr ([(0 : Int), 5, 0].map JVal.int))])
        = some ⟨success demoEnv .NaN, []⟩ := by
  have h1 : postBfhl demoEnv (.obj [("lcm", .arr ([(3 : Int), -3].map JVal.int))])
        = some ⟨success demoEnv (.int 3), []⟩ := by rfl
  have h2 : postBfhl demoEnv (.obj [("lcm", .arr ([(-3 : Int), 3].map JVal.int))])
        = some ⟨success demoEnv (.int (-3)), []⟩ := by rfl
  refine ⟨List.Perm.swap _ _ _, h1, h2, ?_, (List.Perm.swap _ _ _).cons _, ?_, by rfl⟩
  · rw [h1, h2]
    simp [success, JVal.int]
    norm_num
  · rw [postBfhl_single]
    simp [dispatch, reduce, reduceFrom, demoEnv, lcm_zero_zero, Eval.bind, lcm_NaN_left,
      catchBlock]

/-- Claim C5, amended: for a non-empty array `xs` of integers with at most one
zero, whose elements other than zero have a product of at most `2^53` in
absolute value, and a permutation `ys` of it, on a call stack deeper than the
absolute value of every element, the `lcm` requests on `xs` and on `ys` both
succeed with integers of the same absolute value, and with the same integer
when no element is negative. -/
theorem lcm_perm (env : Env) (xs ys : List Int) (hne : xs ≠ []) (hperm : xs.Perm ys)
    (hstack : ∀ x ∈ xs, x.natAbs < env.stack) (hzero : xs.count 0 ≤ 1)
    (hprod : nonZeroProduct xs ≤ 2 ^ 53) :
    ∃ dx dy : Int,
      postBfhl env (.obj [("lcm", .arr (xs.map JVal.int))]) = some ⟨success env (.int dx), []⟩
      ∧ postBfhl env (.obj [("lcm", .arr (ys.map JVal.int))]) = some ⟨success env (.int dy), []⟩
      ∧ dx.natAbs = dy.natAbs
      ∧ ((∀ x ∈ xs, 0 ≤ x) → dx = dy) := by
  have hne' : ys ≠ [] := fun h => hne (by simpa [h] using hperm)
  obtain ⟨dx, hx, hxabs, hxnn⟩ := lcm_request_int env xs hne hstack hzero hprod
  obtain ⟨dy, hy, hyabs, hynn⟩ := lcm_request_int env ys hne'
    (fun y hy => hstack y (hperm.mem_iff.2 hy)) (hperm.count_eq 0 ▸ hzero)
    (nonZeroProduct_perm hperm ▸ hprod)
  have habs : dx.natAbs = dy.natAbs := by
    rw [hxabs, hyabs]
    exact foldl_lcm_perm (hperm.map _) 1
  refine ⟨dx, dy, hx, hy, habs, ?_⟩
  intro hall
  have h1 := hxnn hall
  have h2 := hynn (fun y hy => hall y (hperm.mem_iff.2 hy))
  omega

/-- Claim C5, amended, at `[4, 0, 6]` and `[6, 4, 0]`. -/
theorem lcm_perm_witness :
    ([4, 0, 6] : List Int) ≠ []
    ∧ List.Perm ([4, 0, 6] : List Int) [6, 4, 0]
    ∧ (∀ x ∈ ([4, 0, 6] : List Int), x.natAbs < demoEnv.stack)
    ∧ ([4, 0, 6] : List Int).count 0 ≤ 1
    ∧ nonZeroProduct [4, 0, 6] ≤ 2 ^ 53
    ∧ ∃ dx dy : Int,
      postBfhl demoEnv (.obj [("lcm", .arr (([4, 0, 6] : List Int).map JVal.int))])
        = some ⟨success demoEnv (.int dx), []⟩
      ∧ postBfhl demoEnv (.obj [("lcm", .arr (([6, 4, 0] : List Int).map JVal.int))])
        = some ⟨success demoEnv (.int dy), []⟩
      ∧ dx.natAbs = dy.natAbs
      ∧ ((∀ x ∈ ([4, 0, 6] : List Int), 0 ≤ x) → dx = dy) :=
  ⟨by decide, by decide, by decide, by decide, by decide,
    lcm_perm demoEnv [4, 0, 6] [6, 4, 0] (by decide) (by decide) (by decide) (by decide)
      (by decide)⟩

/-! ## Single-element arrays -/

/-- Claim C6: for every value `a` the requests `{lcm: [a]}` and `{hcf: [a]}`
succeed with status 200 and data `a` itself. -/
theorem single_element (env : Env) (a : JVal) :
    postBfhl env (.obj [("lcm", .arr [a])]) = some ⟨success env a, []⟩
    ∧ postBfhl env (.obj [("hcf", .arr [a])]) = some ⟨success env a, []⟩
    ∧ (success env a).status = 200 ∧ (success env a).data = some a := by
  refine ⟨?_, ?_, rfl, rfl⟩ <;>
  · rw [postBfhl_single]
    simp [dispatch, reduce, reduceFrom, Eval.bind, catchBlock]

/-! ## Validation of the request -/

/-- Claim C7: an object body whose number of keys is not one is answered with
status 400 and the error "Exactly one input key is required", whatever the keys
and values, and the provider is not called. -/
theorem not_one_key (env : Env) (kvs : List (String × JVal)) (h : kvs.length ≠ 1) :
    postBfhl env (.obj kvs)
      = some ⟨failure env 400 "Exactly one input key is required", []⟩ := by
  match kvs, h with
  | [], _ => rfl
  | [_], h => exact absurd rfl h
  | _ :: _ :: _, _ => rfl

/-- Claim C7 at a body with the two keys `fibonacci` and `prime`. -/
theorem not_one_key_witness :
    ([("fibonacci", JVal.int 5), ("prime", JVal.arr [])] : List (String × JVal)).length ≠ 1
    ∧ postBfhl demoEnv (.obj [("fibonacci", JVal.int 5), ("prime", JVal.arr [])])
      = some ⟨failure demoEnv 400 "Exactly one input key is required", []⟩ :=
  ⟨by decide, not_one_key demoEnv _ (by decide)⟩

theorem fibonacci_bad_iff (q : ℚ) : (q.den ≠ 1 ∨ q < 0) ↔
    ((∀ n : Int, JVal.num (.fin q) ≠ .int n) ∨ ∃ n : Int, n < 0 ∧ JVal.num (.fin q) = .int n) := by
  constructor
  · rintro (h | h)
    · left; intro n hn; exact h ((fin_eq_int_iff q).1 ⟨n, hn⟩)
    · by_cases hd : q.den = 1
      · right
        refine ⟨q.num, ?_, by rw [JVal.int, Rat.coe_int_num_of_den_eq_one hd]⟩
        exact Rat.num_neg.2 h
      · left; intro n hn; exact hd ((fin_eq_int_iff q).1 ⟨n, hn⟩)
  · rintro (h | ⟨n, hn, h⟩)
    · left; intro hd
      obtain ⟨n, hn⟩ := (fin_eq_int_iff q).2 hd
      exact h n hn
    · right
      simp only [JVal.int, JVal.num.injEq, JNum.fin.injEq] at h
      rw [h]; exact_mod_cast hn

theorem fibonacci_not_bad (v : JVal)
    (h : ¬ ((∀ n : Int, v ≠ .int n) ∨ ∃ n : Int, n < 0 ∧ v = .int n)) :
    ∃ n : Nat, v = .int n := by
  push_neg at h
  obtain ⟨⟨i, hi⟩, hneg⟩ := h
  have h0 : 0 ≤ i := by
    by_contra hlt
    exact hneg i (by omega) hi
  exact ⟨i.toNat, by rw [hi, Int.toNat_of_nonneg h0]⟩

/-- Claim C8 fails at `{fibonacci: 4294967296}`: the value is a non-negative
integer and the answer is the internal-error response, since an array cannot
hold `2^32` elements. -/
theorem fibonacci_validation_counterexample :
    postBfhl demoEnv (.obj [("fibonacci", .int 4294967296)])
      = some ⟨failure demoEnv 500 "Internal Server Error", []⟩
    ∧ (failure demoEnv 500 "Internal Server Error").status = 500
    ∧ (failure demoEnv 500 "Internal Server Error").is_success = false
    ∧ ((0 : Int) ≤ 4294967296) :=
  ⟨(fibonacci_request_nat demoEnv 4294967296).2 (by decide), rfl, rfl, by decide⟩

/-- Claim C8, amended: the request `{fibonacci: v}` is answered with status 400
and the error "Invalid fibonacci input" exactly when `v` is not an integer or is
a negative integer; otherwise `v` is a non-negative integer `n`, and the answer
is a 200 success with `n` terms when `n < 2^32` and the internal-error response
from `2^32` on. -/
theorem fibonacci_validation (env : Env) (v : JVal) :
    (postBfhl env (.obj [("fibonacci", v)])
        = some ⟨failure env 400 "Invalid fibonacci input", []⟩
      ↔ ((∀ n : Int, v ≠ .int n) ∨ ∃ n : Int, n < 0 ∧ v = .int n))
    ∧ (¬ ((∀ n : Int, v ≠ .int n) ∨ ∃ n : Int, n < 0 ∧ v = .int n) →
        ∃ n : Nat, v = .int n
          ∧ (n < 2 ^ 32 → ∃ terms, terms.length = n
              ∧ postBfhl env (.obj [("fibonacci", v)])
                = some ⟨success env (.arr terms), []⟩)
          ∧ (2 ^ 32 ≤ n → postBfhl env (.obj [("fibonacci", v)])
                = some ⟨failure env 500 "Internal Server Error", []⟩))
    ∧ (success env v).status = 200 := by
  have hgood : ¬ ((∀ n : Int, v ≠ .int n) ∨ ∃ n : Int, n < 0 ∧ v = .int n) →
      ∃ n : Nat, v = .int n
        ∧ (n < 2 ^ 32 → ∃ terms, terms.length = n
            ∧ postBfhl env (.obj [("fibonacci", v)])
              = some ⟨success env (.arr terms), []⟩)
        ∧ (2 ^ 32 ≤ n → postBfhl env (.obj [("fibonacci", v)])
              = some ⟨failure env 500 "Internal Server Error", []⟩) := by
    intro h
    obtain ⟨n, rfl⟩ := fibonacci_not_bad v h
    refine ⟨n, rfl, fun hn => ⟨_, ?_, (fibonacci_request_nat env n).1 hn⟩,
      (fibonacci_request_nat env n).2⟩
    simp
  have hbad : ((∀ n : Int, v ≠ .int n) ∨ ∃ n : Int, n < 0 ∧ v = .int n) →
      postBfhl env (.obj [("fibonacci", v)])
        = some ⟨failure env 400 "Invalid fibonacci input", []⟩ := by
    intro h
    rw [postBfhl_single]
    cases v with
    | num x =>
      cases x with
      | fin q =>
        rw [← fibonacci_bad_iff q] at h
        simp [dispatch, catchBlock, h]
      | nan => simp [dispatch, catchBlock]
      | inf => simp [dispatch, catchBlock]
    | _ => simp [dispatch, catchBlock]
  refine ⟨⟨fun h => ?_, hbad⟩, hgood, rfl⟩
  by_contra hcon
  obtain ⟨n, _, h1, h2⟩ := hgood hcon
  rcases Nat.lt_or_ge n (2 ^ 32) with hn | hn
  · obtain ⟨terms, _, ht⟩ := h1 hn
    rw [ht] at h
    simp [success, failure] at h
  · rw [h2 hn] at h
    simp [failure] at h

/-- Claim C9: `{prime: v}` is answered with status 400 exactly when `v` is not
an array, with the error "Prime input must be an array", and the empty array is
accepted; `{lcm: v}` and `{hcf: v}` are answered with status 400 exactly when
`v` is not an array or is the empty array, with the errors "LCM input must be a
non-empty array" and "HCF input must be a non-empty array". -/
theorem array_validation (env : Env) (v : JVal) :
    ((∀ xs, v ≠ .arr xs) →
        postBfhl env (.obj [("prime", v)])
          = some ⟨failure env 400 "Prime input must be an array", []⟩)
    ∧ ((∃ o, postBfhl env (.obj [("prime", v)]) = some o ∧ o.response.status = 400)
        ↔ ∀ xs, v ≠ .arr xs)
    ∧ postBfhl env (.obj [("prime", .arr [])]) = some ⟨success env (.arr []), []⟩
    ∧ (((∀ xs, v ≠ .arr xs) ∨ v = .arr []) →
        postBfhl env (.obj [("lcm", v)])
          = some ⟨failure env 400 "LCM input must be a non-empty array", []⟩)
    ∧ ((∃ o, postBfhl env (.obj [("lcm", v)]) = some o ∧ o.response.status = 400)
        ↔ ((∀ xs, v ≠ .arr xs) ∨ v = .arr []))
    ∧ (((∀ xs, v ≠ .arr xs) ∨ v = .arr []) →
        postBfhl env (.obj [("hcf", v)])
          = some ⟨failure env 400 "HCF input must be a non-empty array", []⟩)
    ∧ ((∃ o, postBfhl env (.obj [("hcf", v)]) = some o ∧ o.response.status = 400)
        ↔ ((∀ xs, v ≠ .arr xs) ∨ v = .arr [])) := by
  have hprime : (∀ xs, v ≠ .arr xs) →
      postBfhl env (.obj [("prime", v)])
        = some ⟨failure env 400 "Prime input must be an array", []⟩ := by
    intro h
    rw [postBfhl_single]
    cases v with
    | arr xs => exact absurd rfl (h xs)
    | _ => simp [dispatch, catchBlock]
  have hlcm : ((∀ xs, v ≠ .arr xs) ∨ v = .arr []) →
      postBfhl env (.obj [("lcm", v)])
        = some ⟨failure env 400 "LCM input must be a non-empty array", []⟩ := by
    intro h
    rw [postBfhl_single]
    cases v with
    | arr xs =>
      cases xs with
      | nil => simp [dispatch, catchBlock]
      | cons x rest => rcases h with h | h
                       · exact absurd rfl (h _)
                       · simp at h
    | _ => simp [dispatch, catchBlock]
  have hhcf : ((∀ xs, v ≠ .arr xs) ∨ v = .arr []) →
      postBfhl env (.obj [("hcf", v)])
        = some ⟨failure env 400 "HCF input must be a non-empty array", []⟩ := by
    intro h
    rw [postBfhl_single]
    cases v with
    | arr xs =>
      cases xs with
      | nil => simp [dispatch, catchBlock]
      | cons x rest => rcases h with h | h
                       · exact absurd rfl (h _)
                       · simp at h
    | _ => simp [dispatch, catchBlock]
  refine ⟨hprime, ⟨?_, fun h => ⟨_, hprime h, rfl⟩⟩, ?_, hlcm, ⟨?_, fun h => ⟨_, hlcm h, rfl⟩⟩,
    hhcf, ⟨?_, fun h => ⟨_, hhcf h, rfl⟩⟩⟩
  · rintro ⟨o, ho, hs⟩ xs rfl
    rw [postBfhl_single, dispatch_prime_arr] at ho
    simp only [catchBlock, Option.some.injEq] at ho
    rw [← ho] at hs
    simp [success] at hs
  · rw [postBfhl_single]; simp [dispatch, catchBlock]
  · rintro ⟨o, ho, hs⟩
    by_contra hcon
    push_neg at hcon
    obtain ⟨⟨xs, rfl⟩, hne⟩ := hcon
    cases xs with
    | nil => exact hne rfl
    | cons x rest =>
      rw [postBfhl_single, dispatch_lcm_cons] at ho
      exact catchBlock_status_ne env [] _ o ho hs
  · rintro ⟨o, ho, hs⟩
    by_contra hcon
    push_neg at hcon
    obtain ⟨⟨xs, rfl⟩, hne⟩ := hcon
    cases xs with
    | nil => exact hne rfl
    | cons x rest =>
      rw [postBfhl_single, dispatch_hcf_cons] at ho
      exact catchBlock_status_ne env [] _ o ho hs

theorem dropWhile_head_false {α : Type} (p : α → Bool) :
    ∀ (l : List α) (x : α) (rest : List α), l.dropWhile p = x :: rest → p x = false := by
  intro l
  induction l with
  | nil => intro x rest h; simp at h
  | cons a l ih =>
    intro x rest h
    rw [List.dropWhile_cons] at h
    by_cases ha : p a = true
    · rw [if_pos ha] at h; exact ih x rest h
    · rw [if_neg ha] at h
      simp only [List.cons.injEq] at h
      rw [← h.1]; simpa using ha

/-- The trimmed string is empty exactly when every character is white space. -/
theorem trim_eq_empty_iff (s : String) :
    trim s = "" ↔ ∀ c ∈ s.data, isWhiteSpace c = true := by
  have h0 : trim s = "" ↔
      ((s.data.dropWhile isWhiteSpace).reverse.dropWhile isWhiteSpace).reverse = [] := by
    unfold trim
    constructor
    · intro h; exact congrArg String.data h
    · intro h; rw [h]
  rw [h0, List.reverse_eq_nil_iff, List.dropWhile_eq_nil_iff]
  constructor
  · intro h
    cases hd : s.data.dropWhile isWhiteSpace with
    | nil => exact List.dropWhile_eq_nil_iff.1 hd
    | cons x rest =>
      have hx := dropWhile_head_false isWhiteSpace s.data x rest hd
      have := h x (by rw [hd]; simp)
      rw [hx] at this; cases this
  · intro h
    rw [List.dropWhile_eq_nil_iff.2 h]
    intro x hx; simp at hx

/-- Claim C10: the request `{AI: v}` is answered with status 400 exactly when
`v` is not a string or is a string that is empty once trimmed, that is, made of
white space only; the error is then "AI input must be a string" and the
provider is not called. -/
theorem ai_validation (env : Env) (v : JVal) :
    (((∀ s, v ≠ .str s) ∨ ∃ s, v = .str s ∧ trim s = "") →
        postBfhl env (.obj [("AI", v)])
          = some ⟨failure env 400 "AI input must be a string", []⟩)
    ∧ ((∃ o, postBfhl env (.obj [("AI", v)]) = some o ∧ o.response.status = 400)
        ↔ ((∀ s, v ≠ .str s) ∨ ∃ s, v = .str s ∧ trim s = ""))
    ∧ (∀ s, trim s = "" ↔ ∀ c ∈ s.data, isWhiteSpace c = true) := by
  have hbad : ((∀ s, v ≠ .str s) ∨ ∃ s, v = .str s ∧ trim s = "") →
      postBfhl env (.obj [("AI", v)])
        = some ⟨failure env 400 "AI input must be a string", []⟩ := by
    intro h
    rw [postBfhl_single]
    cases v with
    | str s =>
      rcases h with h | ⟨t, ht, hempty⟩
      · exact absurd rfl (h s)
      · simp only [JVal.str.injEq] at ht
        subst ht
        simp [dispatch, catchBlock, hempty]
    | _ => simp [dispatch, catchBlock]
  refine ⟨hbad, ⟨?_, fun h => ⟨_, hbad h, rfl⟩⟩, trim_eq_empty_iff⟩
  rintro ⟨o, ho, hs⟩
  by_contra hcon
  push_neg at hcon
  obtain ⟨⟨s, rfl⟩, hne⟩ := hcon
  have hne' : trim s ≠ "" := hne s rfl
  rw [postBfhl_single, dispatch_AI_str env s hne'] at ho
  cases hc : env.openai s with
  | failure =>
    rw [hc] at ho
    simp only [aiReply, catchBlock, Option.some.injEq] at ho
    rw [← ho] at hs; simp [failure] at hs
  | content c =>
    cases c with
    | none =>
      rw [hc] at ho
      simp only [aiReply, catchBlock, Option.some.injEq] at ho
      rw [← ho] at hs; simp [failure] at hs
    | some c =>
      rw [hc] at ho
      simp only [aiReply, catchBlock, Option.some.injEq] at ho
      rw [← ho] at hs; simp [success] at hs

/-! ## Unknown keys -/

/-- Claim C11: a single-key request whose key is not one of `fibonacci`,
`prime`, `lcm`, `hcf`, `AI`, compared as written, is answered with status 400
and the error "Invalid input key", whatever its value. -/
theorem invalid_key (env : Env) (key : String) (value : JVal)
    (h : key ∉ ["fibonacci", "prime", "lcm", "hcf", "AI"]) :
    postBfhl env (.obj [(key, value)]) = some ⟨failure env 400 "Invalid input key", []⟩ := by
  simp only [List.mem_cons, List.mem_singleton, List.not_mem_nil, or_false, not_or] at h
  obtain ⟨h1, h2, h3, h4, h5⟩ := h
  rw [postBfhl_single]
  simp [dispatch, catchBlock, h1, h2, h3, h4, h5]

/-- Claim C11 at the key `Fibonacci`, which differs from `fibonacci` by case. -/
theorem invalid_key_witness :
    "Fibonacci" ∉ ["fibonacci", "prime", "lcm", "hcf", "AI"]
    ∧ postBfhl demoEnv (.obj [("Fibonacci", .int 5)])
      = some ⟨failure demoEnv 400 "Invalid input key", []⟩ :=
  ⟨by decide, invalid_key demoEnv "Fibonacci" (.int 5) (by decide)⟩

/-! ## The envelope -/

theorem bind_success_ok (env : Env) (e : Eval JVal) (r : Response)
    (h : e.bind (fun data => .ok (success env data)) = .ok r) : SentByTry env r := by
  cases e with
  | ok d =>
    simp only [Eval.bind, Eval.ok.injEq] at h
    exact Or.inl ⟨d, h.symm⟩
  | throws err => simp [Eval.bind] at h
  | unmodelled => simp [Eval.bind] at h

theorem bind_success_arr_ok (env : Env) (e : Eval (List JVal)) (r : Response)
    (h : e.bind (fun fib => .ok (success env (.arr fib))) = .ok r) : SentByTry env r := by
  cases e with
  | ok d =>
    simp only [Eval.bind, Eval.ok.injEq] at h
    exact Or.inl ⟨_, h.symm⟩
  | throws err => simp [Eval.bind] at h
  | unmodelled => simp [Eval.bind] at h

theorem aiReply_ok (env : Env) (s : String) (c : Completion) (calls : List String)
    (r : Response) (h : aiReply env s c = (calls, .ok r)) : SentByTry env r := by
  cases c with
  | failure err => simp [aiReply] at h
  | content c =>
    cases c with
    | none => simp [aiReply] at h
    | some t =>
      simp only [aiReply, Prod.mk.injEq, Eval.ok.injEq] at h
      exact Or.inl ⟨_, h.2.symm⟩

theorem dispatch_ok (env : Env) (key : String) (value : JVal) (calls : List String)
    (r : Response) (h : dispatch env key value = (calls, .ok r)) : SentByTry env r := by
  unfold dispatch at h
  split_ifs at h
  · split at h
    · split_ifs at h
      · simp only [Prod.mk.injEq, Eval.ok.injEq] at h; exact Or.inr ⟨_, h.2.symm⟩
      · simp only [Prod.mk.injEq] at h; exact bind_success_arr_ok env _ r h.2
    · simp only [Prod.mk.injEq, Eval.ok.injEq] at h; exact Or.inr ⟨_, h.2.symm⟩
  · split at h
    · simp only [Prod.mk.injEq, Eval.ok.injEq] at h; exact Or.inl ⟨_, h.2.symm⟩
    · simp only [Prod.mk.injEq, Eval.ok.injEq] at h; exact Or.inr ⟨_, h.2.symm⟩
  · split at h
    · simp only [Prod.mk.injEq] at h; exact bind_success_ok env _ r h.2
    · simp only [Prod.mk.injEq, Eval.ok.injEq] at h; exact Or.inr ⟨_, h.2.symm⟩
  · split at h
    · simp only [Prod.mk.injEq] at h; exact bind_success_ok env _ r h.2
    · simp only [Prod.mk.injEq, Eval.ok.injEq] at h; exact Or.inr ⟨_, h.2.symm⟩
  · split at h
    · split_ifs at h
      · simp only [Prod.mk.injEq, Eval.ok.injEq] at h; exact Or.inr ⟨_, h.2.symm⟩
      · exact aiReply_ok env _ _ calls r h
    · simp only [Prod.mk.injEq, Eval.ok.injEq] at h; exact Or.inr ⟨_, h.2.symm⟩
  · simp only [Prod.mk.injEq, Eval.ok.injEq] at h; exact Or.inr ⟨_, h.2.symm⟩

theorem tryBlock_ok (env : Env) (body : JVal) (calls : List String) (r : Response)
    (h : tryBlock env body = (calls, .ok r)) : SentByTry env r := by
  unfold tryBlock at h
  split at h
  · exact dispatch_ok env _ _ calls r h
  · simp only [Prod.mk.injEq, Eval.ok.injEq] at h; exact Or.inr ⟨_, h.2.symm⟩
  · simp at h
  · simp at h

/-- Every response of the handler is the success envelope, a 400 failure
envelope, or the 500 failure envelope. -/
theorem postBfhl_response (env : Env) (body : JVal) (o : Outcome)
    (h : postBfhl env body = some o) :
    SentByTry env o.response ∨ o.response = failure env 500 "Internal Server Error" := by
  unfold postBfhl at h
  cases ht : tryBlock env body with
  | mk calls e =>
    rw [ht] at h
    cases e with
    | ok r =>
      simp only [catchBlock, Option.some.injEq] at h
      rw [← h]
      exact Or.inl (tryBlock_ok env body calls r ht)
    | throws err =>
      simp only [catchBlock, Option.some.injEq] at h
      rw [← h]
      exact Or.inr rfl
    | unmodelled => simp [catchBlock] at h

/-- Claim C12: in a process configured with an official e-mail address, every
response of the handler carries `is_success` and that address; `data` is
present exactly when `is_success` is true, `error` exactly when it is false, and
the status is 200 exactly when `is_success` is true and 400 or 500 otherwise. -/
theorem envelope_invariant (env : Env) (email : String) (hemail : env.EMAIL = some email)
    (body : JVal) (o : Outcome) (h : postBfhl env body = some o) :
    o.response.official_email = some email
    ∧ (o.response.data.isSome = true ↔ o.response.is_success = true)
    ∧ (o.response.error.isSome = true ↔ o.response.is_success = false)
    ∧ (o.response.status = 200 ↔ o.response.is_success = true)
    ∧ (o.response.is_success = false → o.response.status = 400 ∨ o.response.status = 500) := by
  rcases postBfhl_response env body o h with (⟨d, hr⟩ | ⟨msg, hr⟩) | hr <;>
    rw [hr] <;> simp [success, failure, hemail]

/-- Claim C12 at the request `{fibonacci: -1}`. -/
theorem envelope_invariant_witness :
    demoEnv.EMAIL = some "official@example.com"
    ∧ postBfhl demoEnv (.obj [("fibonacci", .int (-1))])
        = some ⟨failure demoEnv 400 "Invalid fibonacci input", []⟩
    ∧ (failure demoEnv 400 "Invalid fibonacci input").official_email
        = some "official@example.com"
    ∧ (failure demoEnv 400 "Invalid fibonacci input").is_success = false :=
  ⟨rfl, by rfl,
    (envelope_invariant demoEnv "official@example.com" rfl
      (.obj [("fibonacci", .int (-1))]) ⟨failure demoEnv 400 "Invalid fibonacci input", []⟩
      (by rfl)).1, rfl⟩

/-- Claim C13: whenever the `try` block throws, with any error, the response is
status 500 with `is_success` false and the error "Internal Server Error"; in
particular when the provider call fails, whatever the text of its error. -/
theorem internal_error (env : Env) (body : JVal) (calls : List String) (err : String)
    (h : tryBlock env body = (calls, .throws err)) :
    postBfhl env body = some ⟨failure env 500 "Internal Server Error", calls⟩
    ∧ (∀ s e, trim s ≠ "" → env.openai s = .failure e →
        postBfhl env (.obj [("AI", .str s)])
          = some ⟨failure env 500 "Internal Server Error", [s]⟩)
    ∧ (failure env 500 "Internal Server Error").status = 500
    ∧ (failure env 500 "Internal Server Error").is_success = false
    ∧ (failure env 500 "Internal Server Error").error = some "Internal Server Error" := by
  refine ⟨?_, ?_, rfl, rfl, rfl⟩
  · simp [postBfhl, h, catchBlock]
  · intro s e hs he
    rw [postBfhl_single, dispatch_AI_str env s hs, he]
    rfl

/-- Claim C13 at a request to a provider that is down. -/
theorem internal_error_witness :
    tryBlock downEnv (.obj [("AI", .str "capital of France")])
        = (["capital of France"], .throws "503 Service Unavailable")
    ∧ postBfhl downEnv (.obj [("AI", .str "capital of France")])
        = some ⟨failure downEnv 500 "Internal Server Error", ["capital of France"]⟩ :=
  ⟨by rfl, (internal_error downEnv (.obj [("AI", .str "capital of France")])
    ["capital of France"] "503 Service Unavailable" (by rfl)).1⟩

/-! ## The `AI` case -/

theorem splitWhiteSpace_ne_nil (inRun : Bool) (cs : List Char) :
    splitWhiteSpace inRun cs ≠ [] := by
  induction cs generalizing inRun with
  | nil => simp [splitWhiteSpace]
  | cons c cs ih =>
    unfold splitWhiteSpace
    split_ifs
    · exact ih true
    · simp
    · split <;> simp

/-- The first piece of `split(/\s+/)` is made of the characters before the first
white space. -/
theorem splitWhiteSpace_head (cs : List Char) :
    (splitWhiteSpace false cs).headD [] = cs.takeWhile (fun c => !isWhiteSpace c) := by
  induction cs with
  | nil => simp [splitWhiteSpace]
  | cons c cs ih =>
    unfold splitWhiteSpace
    by_cases hc : isWhiteSpace c = true
    · simp [hc, List.takeWhile]
    · simp only [hc, if_false]
      have hne := splitWhiteSpace_ne_nil false cs
      cases hsp : splitWhiteSpace false cs with
      | nil => exact absurd hsp hne
      | cons tok rest =>
        rw [hsp] at ih
        simp only [List.headD_cons] at ih
        simp [List.takeWhile, hc, ih]

theorem isWordChar_eq (c : Char) : isWordChar c = (c.isAlphanum || c == '_') := by
  have h5f : (c == '_') = decide (c.toNat = 0x5F) := by
    by_cases h : c = '_'
    · subst h; rfl
    · have : c.toNat ≠ 0x5F := by
        intro hn
        apply h
        apply Char.ext
        apply UInt32.ext
        exact hn
      simp [h, this]
  rw [h5f]
  simp only [isWordChar, Char.isAlphanum, Char.isAlpha, Char.isUpper, Char.isLower, Char.isDigit,
    Char.toNat, UInt32.le_def, ge_iff_le]
  rfl

theorem stripNonWord_firstToken_trim (t : String) :
    stripNonWord (firstToken (trim t)) = specOneWord t := by
  simp only [stripNonWord, firstToken, specOneWord, splitWhiteSpace_head]
  congr 1
  apply List.filter_congr
  intro c _
  exact isWordChar_eq c

theorem isWordChar_range (c : Char) (h : isWordChar c = true) :
    (('A' ≤ c ∧ c ≤ 'Z') ∨ ('a' ≤ c ∧ c ≤ 'z') ∨ ('0' ≤ c ∧ c ≤ '9') ∨ c = '_') := by
  simp only [isWordChar, Bool.or_eq_true, Bool.and_eq_true, decide_eq_true_eq] at h
  rcases h with ((h | h) | h) | h
  · left; exact ⟨h.1, h.2⟩
  · right; left; exact ⟨h.1, h.2⟩
  · right; right; left; exact ⟨h.1, h.2⟩
  · right; right; right
    apply Char.ext
    apply UInt32.ext
    exact h

theorem isWordChar_not_whiteSpace (c : Char) (h : isWordChar c = true) :
    isWhiteSpace c = false := by
  simp only [isWordChar, Bool.or_eq_true, Bool.and_eq_true, decide_eq_true_eq] at h
  simp only [isWhiteSpace, Bool.or_eq_false_iff, Bool.and_eq_false_imp, decide_eq_false_iff_not,
    decide_eq_true_eq]
  omega

theorem specOneWord_chars (t : String) (c : Char) (hc : c ∈ (specOneWord t).data) :
    isWordChar c = true := by
  simp only [specOneWord, List.mem_filter] at hc
  rw [isWordChar_eq]
  exact hc.2

/-- Claim C14: for a valid `AI` request and a provider answer `t`, the data is
`t` trimmed, split on white space, cut to its first token and stripped of every
character that is not alphanumeric or underscore; it has no white space and
only characters of `[A-Za-z0-9_]`. -/
theorem ai_output (env : Env) (s t : String) (hs : trim s ≠ "")
    (ht : env.openai s = .content (some t)) :
    postBfhl env (.obj [("AI", .str s)]) = some ⟨success env (.str (specOneWord t)), [s]⟩
    ∧ (∀ c ∈ (specOneWord t).data, isWhiteSpace c = false
        ∧ (('A' ≤ c ∧ c ≤ 'Z') ∨ ('a' ≤ c ∧ c ≤ 'z') ∨ ('0' ≤ c ∧ c ≤ '9') ∨ c = '_')) := by
  refine ⟨?_, fun c hc => ?_⟩
  · rw [postBfhl_single, dispatch_AI_str env s hs, ht]
    simp [aiReply, catchBlock, stripNonWord_firstToken_trim]
  · have hw := specOneWord_chars t c hc
    exact ⟨isWordChar_not_whiteSpace c hw, isWordChar_range c hw⟩

/-- Claim C14 at the provider answer `Paris`. -/
theorem ai_output_witness :
    trim "capital of France" ≠ ""
    ∧ demoEnv.openai "capital of France" = .content (some "Paris")
    ∧ postBfhl demoEnv (.obj [("AI", .str "capital of France")])
        = some ⟨success demoEnv (.str (specOneWord "Paris")), ["capital of France"]⟩
    ∧ specOneWord " Paris, France.\n" = "Paris" :=
  ⟨by decide, rfl,
    (ai_output demoEnv "capital of France" "Paris" (by decide) rfl).1, by decide⟩

/-- Claim C15 fails: for the value `" hi "` the provider is handed `" hi "`, not
the trimmed `"hi"`. -/
theorem ai_prompt_counterexample :
    trim " hi " ≠ ""
    ∧ (postBfhl demoEnv (.obj [("AI", .str " hi ")])).map Outcome.calls = some [" hi "]
    ∧ [" hi "] ≠ [trim " hi "] := by
  refine ⟨by decide, by rfl, by decide⟩

/-- Claim C15, amended: for a valid `AI` request the user message handed to
the provider is the value itself, untrimmed, and the provider is called once. -/
theorem ai_prompt (env : Env) (s : String) (hs : trim s ≠ "") :
    ∃ o, postBfhl env (.obj [("AI", .str s)]) = some o ∧ o.calls = [s] := by
  rw [postBfhl_single, dispatch_AI_str env s hs]
  cases env.openai s with
  | failure err => exact ⟨_, rfl, rfl⟩
  | content c =>
    cases c with
    | none => exact ⟨_, rfl, rfl⟩
    | some t => exact ⟨_, rfl, rfl⟩

/-- Claim C15, amended, at the value `" hi "`. -/
theorem ai_prompt_witness :
    trim " hi " ≠ "" ∧ ∃ o, postBfhl demoEnv (.obj [("AI", .str " hi ")]) = some o
      ∧ o.calls = [" hi "] :=
  ⟨by decide, ai_prompt demoEnv " hi " (by decide)⟩

/-- Claim C17 fails: when the provider answers with white space only, the
request ends in a 200 success whose data is the empty string. -/
theorem ai_no_content_counterexample :
    trim "capital of France" ≠ ""
    ∧ blankEnv.openai "capital of France" = .content (some "  ")
    ∧ trim "  " = ""
    ∧ postBfhl blankEnv (.obj [("AI", .str "capital of France")])
      = some ⟨success blankEnv (.str ""), ["capital of France"]⟩
    ∧ (success blankEnv (.str "")).status = 200 := by
  refine ⟨by decide, rfl, by decide, by rfl, rfl⟩

/-- Claim C17, amended: for a valid `AI` request, a `null` content ends in the
internal-error response, and a content that is empty or white space only ends
in a 200 success whose data is the empty string. -/
theorem ai_no_content (env : Env) (s : String) (hs : trim s ≠ "") :
    (env.openai s = .content none →
      postBfhl env (.obj [("AI", .str s)])
        = some ⟨failure env 500 "Internal Server Error", [s]⟩)
    ∧ (∀ t, env.openai s = .content (some t) → trim t = "" →
      postBfhl env (.obj [("AI", .str s)]) = some ⟨success env (.str ""), [s]⟩) := by
  refine ⟨fun h => ?_, fun t h ht => ?_⟩
  · rw [postBfhl_single, dispatch_AI_str env s hs, h]; rfl
  · rw [postBfhl_single, dispatch_AI_str env s hs, h]
    simp only [aiReply, catchBlock, ht]
    rfl

/-- Claim C17, amended, at a provider that answers with white space only. -/
theorem ai_no_content_witness :
    trim "capital of France" ≠ ""
    ∧ postBfhl blankEnv (.obj [("AI", .str "capital of France")])
      = some ⟨success blankEnv (.str ""), ["capital of France"]⟩ :=
  ⟨by decide, (ai_no_content blankEnv "capital of France" (by decide)).2 "  " rfl (by decide)⟩

/-! ## `lcm` on two zeros -/

/-- Claim C16 fails: `{lcm: [0, 0]}` ends in a 200 success whose data is `NaN`. -/
theorem lcm_zero_counterexample :
    postBfhl demoEnv (.obj [("lcm", .arr [.int 0, .int 0])]) = some ⟨success demoEnv .NaN, []⟩
    ∧ (success demoEnv .NaN).status = 200
    ∧ (success demoEnv .NaN).is_success = true
    ∧ (success demoEnv .NaN).data = some .NaN := by
  refine ⟨by rfl, rfl, rfl, rfl⟩

/-- Claim C16, amended: `lcm` has no guard; on two zeros `gcd` is `0`, the
division `0 / 0` is `NaN` and raises nothing, and `{lcm: [0, 0]}` ends in a 200
success whose data is `NaN`. -/
theorem lcm_zero_unguarded (env : Env) (h : 0 < env.stack) :
    gcd env.stack (.int 0) (.int 0) = .ok (.int 0)
    ∧ jsDiv (.int 0) (.int 0) = .ok .NaN
    ∧ lcm env.stack (.int 0) (.int 0) = .ok .NaN
    ∧ postBfhl env (.obj [("lcm", .arr [.int 0, .int 0])]) = some ⟨success env .NaN, []⟩ := by
  obtain ⟨k, hk⟩ : ∃ k, env.stack = k + 1 := ⟨env.stack - 1, by omega⟩
  have hl : lcm env.stack (.int 0) (.int 0) = .ok .NaN := by rw [hk]; exact lcm_zero_zero k
  refine ⟨?_, ?_, hl, ?_⟩
  · rw [hk]; simp [gcd, strictEqZero_int]
  · simp [jsDiv, operand_int]
  · rw [postBfhl_single, dispatch_lcm_cons]
    simp [reduce, reduceFrom, hl, Eval.bind, catchBlock]

/-- Claim C16, amended, in the example environment. -/
theorem lcm_zero_unguarded_witness :
    0 < demoEnv.stack
    ∧ postBfhl demoEnv (.obj [("lcm", .arr [.int 0, .int 0])])
      = some ⟨success demoEnv .NaN, []⟩ :=
  ⟨by decide, (lcm_zero_unguarded demoEnv (by decide)).2.2.2⟩

/-! ## `hcf` and `lcm` on positive integers -/

theorem foldl_gcd_dvd : ∀ (l : List Nat) (init : Nat),
    l.foldl Nat.gcd init ∣ init ∧ ∀ x ∈ l, l.foldl Nat.gcd init ∣ x := by
  intro l
  induction l with
  | nil => intro init; simp
  | cons y l ih =>
    intro init
    obtain ⟨h1, h2⟩ := ih (Nat.gcd init y)
    refine ⟨h1.trans (Nat.gcd_dvd_left _ _), ?_⟩
    intro x hx
    rcases List.mem_cons.1 hx with rfl | hx
    · exact h1.trans (Nat.gcd_dvd_right _ _)
    · exact h2 x hx

theorem dvd_foldl_gcd : ∀ (l : List Nat) (init c : Nat),
    c ∣ init → (∀ x ∈ l, c ∣ x) → c ∣ l.foldl Nat.gcd init := by
  intro l
  induction l with
  | nil => intro init c h _; simpa using h
  | cons y l ih =>
    intro init c h hall
    exact ih (Nat.gcd init y) c (Nat.dvd_gcd h (hall y (List.mem_cons_self _ _)))
      (fun x hx => hall x (List.mem_cons_of_mem _ hx))

theorem foldl_lcm_dvd : ∀ (l : List Nat) (init : Nat),
    init ∣ l.foldl Nat.lcm init ∧ ∀ x ∈ l, x ∣ l.foldl Nat.lcm init := by
  intro l
  induction l with
  | nil => intro init; simp
  | cons y l ih =>
    intro init
    obtain ⟨h1, h2⟩ := ih (Nat.lcm init y)
    refine ⟨(Nat.dvd_lcm_left _ _).trans h1, ?_⟩
    intro x hx
    rcases List.mem_cons.1 hx with rfl | hx
    · exact (Nat.dvd_lcm_right _ _).trans h1
    · exact h2 x hx

theorem foldl_lcm_dvd_of : ∀ (l : List Nat) (init m : Nat),
    init ∣ m → (∀ x ∈ l, x ∣ m) → l.foldl Nat.lcm init ∣ m := by
  intro l
  induction l with
  | nil => intro init m h _; simpa using h
  | cons y l ih =>
    intro init m h hall
    exact ih (Nat.lcm init y) m (Nat.lcm_dvd h (hall y (List.mem_cons_self _ _)))
      (fun x hx => hall x (List.mem_cons_of_mem _ hx))

theorem foldl_lcm_ne_zero : ∀ (l : List Nat) (init : Nat),
    init ≠ 0 → (∀ x ∈ l, x ≠ 0) → l.foldl Nat.lcm init ≠ 0 := by
  intro l
  induction l with
  | nil => intro init h _; simpa using h
  | cons y l ih =>
    intro init h hall
    exact ih (Nat.lcm init y) (Nat.lcm_ne_zero h (hall y (List.mem_cons_self _ _)))
      (fun x hx => hall x (List.mem_cons_of_mem _ hx))

theorem gcd_zero_right (k : Nat) (a : JVal) : gcd (k + 1) a (.int 0) = .ok a := by
  simp [gcd, strictEqZero_int]

/-- Claim C18: for a non-empty array of positive integers, on a call stack
deeper than every element, `hcf` returns a positive integer that divides every
element and is divided by every common divisor; `gcd(a, 0)` is `a`, and on
positive integers `gcd` is the mathematical greatest common divisor. -/
theorem hcf_is_gcd (env : Env) (xs : List Int) (hne : xs ≠ []) (hpos : ∀ x ∈ xs, 0 < x)
    (hstack : ∀ x ∈ xs, x.natAbs < env.stack) :
    (∃ d : Int,
      postBfhl env (.obj [("hcf", .arr (xs.map JVal.int))]) = some ⟨success env (.int d), []⟩
      ∧ 0 < d ∧ (∀ x ∈ xs, d ∣ x) ∧ (∀ c : Int, (∀ x ∈ xs, c ∣ x) → c ∣ d))
    ∧ (∀ a : JVal, gcd env.stack a (.int 0) = .ok a)
    ∧ (∀ a b : Int, 0 < a → 0 < b → b.natAbs < env.stack →
        gcd env.stack (.int a) (.int b) = .ok (.int (Int.gcd a b))) := by
  obtain ⟨x0, hx0⟩ := List.exists_mem_of_ne_nil xs hne
  refine ⟨?_, ?_, ?_⟩
  · obtain ⟨d, hd, habs, hnn⟩ := hcf_int env xs hne hstack
    have hd0 : 0 ≤ d := hnn (fun x hx => le_of_lt (hpos x hx))
    have hdvd : ∀ x ∈ xs, d ∣ x := by
      intro x hx
      rw [← Int.natAbs_dvd_natAbs, habs]
      exact (foldl_gcd_dvd _ 0).2 _ (List.mem_map_of_mem _ hx)
    have hne0 : d ≠ 0 := by
      rintro rfl
      have := hpos x0 hx0
      have := zero_dvd_iff.1 (hdvd x0 hx0)
      omega
    refine ⟨d, hd, by omega, hdvd, ?_⟩
    intro c hc
    rw [← Int.natAbs_dvd_natAbs, habs]
    apply dvd_foldl_gcd _ 0 _ (Nat.dvd_zero _)
    intro n hn
    obtain ⟨x, hx, rfl⟩ := List.mem_map.1 hn
    exact Int.natAbs_dvd_natAbs.2 (hc x hx)
  · intro a
    obtain ⟨k, hk⟩ : ∃ k, env.stack = k + 1 := ⟨env.stack - 1, by have := hstack x0 hx0; omega⟩
    rw [hk]; exact gcd_zero_right k a
  · intro a b ha hb hk
    obtain ⟨g, hg, habs, hnn⟩ := gcd_int env.stack a b hk
    have h0 : 0 ≤ g := hnn (le_of_lt ha) (le_of_lt hb)
    have : g = Int.gcd a b := by
      rw [Int.gcd, ← habs]; omega
    rw [hg, this]

/-- Claim C18 at `[12, 18]`, which gives `6`. -/
theorem hcf_is_gcd_witness :
    ([12, 18] : List Int) ≠ []
    ∧ (∀ x ∈ ([12, 18] : List Int), 0 < x)
    ∧ (∀ x ∈ ([12, 18] : List Int), x.natAbs < demoEnv.stack)
    ∧ postBfhl demoEnv (.obj [("hcf", .arr (([12, 18] : List Int).map JVal.int))])
        = some ⟨success demoEnv (.int 6), []⟩
    ∧ gcd demoEnv.stack (.int 18) (.int 12) = .ok (.int (Int.gcd 18 12)) :=
  ⟨by decide, by decide, by decide, by rfl,
    (hcf_is_gcd demoEnv [12, 18] (by decide) (by decide) (by decide)).2.2 18 12
      (by decide) (by decide) (by decide)⟩

theorem nonZeroProduct_of_pos (xs : List Int) (hpos : ∀ x ∈ xs, 0 < x) :
    (nonZeroProduct xs : Int) = xs.prod := by
  induction xs with
  | nil => simp [nonZeroProduct]
  | cons n rest ih =>
    have hn : 0 < n := hpos n (List.mem_cons_self _ _)
    rw [nonZeroProduct_cons, if_neg (by omega), List.prod_cons, Nat.cast_mul,
      ih (fun x hx => hpos x (List.mem_cons_of_mem _ hx))]
    congr 1
    omega

/-- Claim C19: for a non-empty array of positive integers whose product is at
most `2^53`, so that every product formed by the fold is exact, on a call stack
deeper than every element, `lcm` returns a positive integer that every element
divides and that divides every common multiple; at each step the product
`a * b` is exact and its division by `gcd(a, b)` is exact. -/
theorem lcm_is_lcm (env : Env) (xs : List Int) (hne : xs ≠ []) (hpos : ∀ x ∈ xs, 0 < x)
    (hstack : ∀ x ∈ xs, x.natAbs < env.stack) (hprod : xs.prod ≤ 2 ^ 53) :
    (∃ d : Int,
      postBfhl env (.obj [("lcm", .arr (xs.map JVal.int))]) = some ⟨success env (.int d), []⟩
      ∧ 0 < d ∧ (∀ x ∈ xs, x ∣ d) ∧ (∀ m : Int, (∀ x ∈ xs, x ∣ m) → d ∣ m))
    ∧ (∀ a b : Int, 0 < a → 0 < b → b.natAbs < env.stack → a * b ≤ 2 ^ 53 →
        ∃ g : Int, gcd env.stack (.int a) (.int b) = .ok (.int g) ∧ g ∣ a * b
          ∧ jsMul (.int a) (.int b) = .ok (.int (a * b))
          ∧ jsDiv (.int (a * b)) (.int g) = .ok (.int (a * b / g))
          ∧ lcm env.stack (.int a) (.int b) = .ok (.int (a * b / g))) := by
  refine ⟨?_, ?_⟩
  · have hzero : xs.count 0 ≤ 1 := by
      have : (0 : Int) ∉ xs := fun h => by have := hpos 0 h; omega
      rw [List.count_eq_zero_of_not_mem this]; omega
    have hbound : nonZeroProduct xs ≤ 2 ^ 53 := by
      have h := nonZeroProduct_of_pos xs hpos
      have h2 : (nonZeroProduct xs : Int) ≤ 2 ^ 53 := by rw [h]; exact hprod
      exact_mod_cast h2
    obtain ⟨d, hd, habs, hnn⟩ := lcm_request_int env xs hne hstack hzero hbound
    have hd0 : 0 ≤ d := hnn (fun x hx => le_of_lt (hpos x hx))
    have hne0 : d ≠ 0 := by
      intro h
      have h1 : d.natAbs = 0 := by rw [h]; rfl
      rw [habs] at h1
      refine foldl_lcm_ne_zero _ 1 one_ne_zero ?_ h1
      intro n hn
      obtain ⟨x, hx, rfl⟩ := List.mem_map.1 hn
      have := hpos x hx
      omega
    refine ⟨d, hd, by omega, ?_, ?_⟩
    · intro x hx
      rw [← Int.natAbs_dvd_natAbs, habs]
      exact (foldl_lcm_dvd _ 1).2 _ (List.mem_map_of_mem _ hx)
    · intro m hm
      rw [← Int.natAbs_dvd_natAbs, habs]
      apply foldl_lcm_dvd_of _ 1 _ (Nat.one_dvd _)
      intro n hn
      obtain ⟨x, hx, rfl⟩ := List.mem_map.1 hn
      exact Int.natAbs_dvd_natAbs.2 (hm x hx)
  · intro a b ha hb hk hab
    obtain ⟨g, hg, habs, hnn⟩ := gcd_int env.stack a b hk
    have hg0 : g ≠ 0 := by
      intro h
      rw [h, Int.natAbs_zero, eq_comm, Nat.gcd_eq_zero_iff] at habs
      have := Int.natAbs_eq_zero.1 habs.1
      omega
    have hdvd : g ∣ a * b := by
      have h1 : g.natAbs ∣ a.natAbs := habs ▸ Nat.gcd_dvd_left _ _
      exact Dvd.dvd.mul_right (Int.natAbs_dvd_natAbs.1 h1) b
    have hnat : (a * b).natAbs ≤ 2 ^ 53 := by
      have h0 : 0 ≤ a * b := Int.mul_nonneg (le_of_lt ha) (le_of_lt hb)
      have : ((a * b).natAbs : Int) ≤ 2 ^ 53 := by
        rw [Int.natAbs_of_nonneg h0]; exact hab
      exact_mod_cast this
    have hmul : jsMul (.int a) (.int b) = .ok (.int (a * b)) := by
      simp only [jsMul, operand_int]
      rw [if_pos hnat]
    have hdiv : jsDiv (.int (a * b)) (.int g) = .ok (.int (a * b / g)) := by
      simp [jsDiv, operand_int, hg0, hdvd, Int.tdiv_eq_ediv_of_dvd hdvd]
    refine ⟨g, hg, hdvd, hmul, hdiv, ?_⟩
    simp only [lcm, hmul, Eval.bind, hg]
    exact hdiv

/-- Claim C19 at `[4, 6]`, which gives `12`. -/
theorem lcm_is_lcm_witness :
    ([4, 6] : List Int) ≠ []
    ∧ (∀ x ∈ ([4, 6] : List Int), 0 < x)
    ∧ (∀ x ∈ ([4, 6] : List Int), x.natAbs < demoEnv.stack)
    ∧ ([4, 6] : List Int).prod ≤ 2 ^ 53
    ∧ postBfhl demoEnv (.obj [("lcm", .arr (([4, 6] : List Int).map JVal.int))])
        = some ⟨success demoEnv (.int 12), []⟩
    ∧ ∃ d : Int,
      postBfhl demoEnv (.obj [("lcm", .arr (([4, 6] : List Int).map JVal.int))])
        = some ⟨success demoEnv (.int d), []⟩
      ∧ 0 < d ∧ (∀ x ∈ ([4, 6] : List Int), x ∣ d)
      ∧ (∀ m : Int, (∀ x ∈ ([4, 6] : List Int), x ∣ m) → d ∣ m) :=
  ⟨by decide, by decide, by decide, by decide, by rfl,
    (lcm_is_lcm demoEnv [4, 6] (by decide) (by decide) (by decide) (by decide)).1⟩

/-! ## Termination of `gcd` -/

theorem gcd_stable (k : Nat) : ∀ a b : Int, b.natAbs < k →
    gcd k (.int a) (.int b) = gcd (b.natAbs + 1) (.int a) (.int b) := by
  induction k using Nat.strong_induction_on with
  | _ k ih =>
    intro a b hb
    obtain ⟨j, rfl⟩ : ∃ j, k = j + 1 := ⟨k - 1, by omega⟩
    by_cases hz : b = 0
    · subst hz; simp [gcd, strictEqZero_int]
    · have hlt : (a.tmod b).natAbs < b.natAbs := by
        rw [natAbs_tmod]; exact Nat.mod_lt _ (by omega)
      have e1 : gcd (j + 1) (.int a) (.int b) = gcd j (.int b) (.int (a.tmod b)) := by
        simp [gcd, strictEqZero_int, hz, jsMod, operand_int, Eval.bind]
      have e2 : gcd (b.natAbs + 1) (.int a) (.int b)
          = gcd b.natAbs (.int b) (.int (a.tmod b)) := by
        simp [gcd, strictEqZero_int, hz, jsMod, operand_int, Eval.bind]
      rw [e1, e2, ih j (by omega) b (a.tmod b) (by omega),
        ih b.natAbs (by omega) b (a.tmod b) hlt]

/-- Claim C20: on integers `a` and `b` with `b` not zero, `gcd(a, b)` calls
`gcd(b, a % b)` and `|a % b| < |b|`; so for all integers `a` and `b` the
recursion ends: on every stack deeper than `|b|`, `gcd` returns one and the same
integer. -/
theorem gcd_terminates (a b : Int) :
    (b ≠ 0 → jsMod (.int a) (.int b) = .ok (.int (a.tmod b))
      ∧ (a.tmod b).natAbs < b.natAbs
      ∧ ∀ stack, gcd (stack + 1) (.int a) (.int b) = gcd stack (.int b) (.int (a.tmod b)))
    ∧ ∃ g : Int, ∀ stack, b.natAbs < stack → gcd stack (.int a) (.int b) = .ok (.int g) := by
  refine ⟨fun hz => ⟨?_, ?_, ?_⟩, ?_⟩
  · simp [jsMod, operand_int, hz]
  · rw [natAbs_tmod]; exact Nat.mod_lt _ (by omega)
  · intro stack
    simp [gcd, strictEqZero_int, hz, jsMod, operand_int, Eval.bind]
  · obtain ⟨g, hg, _, _⟩ := gcd_int (b.natAbs + 1) a b (by omega)
    refine ⟨g, fun stack hs => ?_⟩
    rw [gcd_stable stack a b hs, hg]

end Bfhl
